import Mathlib

/-!
# GoalFlow-AI: formal model of the plan-synthesis pipeline

Shallow embedding of the agent pipeline of this repository
(`backend/src/agents/*.js`): goal analysis, task decomposition,
priority scoring, schedule construction, and reflection.  Each
JavaScript function is translated into a Lean definition over explicit
data.  The external text-generation call (`callHuggingFace`) is
modelled by its outcome, `Except String α`: `.error` when every
backend/attempt failed (the promise rejected), `.ok` with the response
otherwise.  The code-fence stripping plus `JSON.parse` recovery cascade
applied by each agent to the raw response text is likewise modelled by
its outcome, `Option Json`: `none` when every parse attempt failed.
JavaScript numbers are modelled as rationals (all arithmetic performed
by this program — halves, tenths, percentages — is exact in binary
floating point at the magnitudes involved).  Wall-clock metadata
(`Date.now()`, `new Date().toISOString()` fields such as `createdAt`,
`analyzedAt`, `generatedAt`, `scoredAt`, `lastUpdated`) is either
omitted or passed as an explicit parameter where it feeds an id.
-/

namespace GoalFlow

/-- JavaScript values as produced by `JSON.parse`. -/
inductive Json where
  | null : Json
  | bool (b : Bool) : Json
  | num (q : ℚ) : Json
  | str (s : String) : Json
  | arr (elems : List Json) : Json
  | obj (fields : List (String × Json)) : Json
deriving Inhabited

/-- Property access `j.name` on a parsed value: `some` when `j` is an
object having the field, `none` (JS `undefined`) otherwise.  Access on
`Json.null` throws a `TypeError` in JS and is handled separately at
each use site. -/
def getField : Json → String → Option Json
  | Json.obj fields, name => (fields.find? (fun f => f.fst == name)).map (·.snd)
  | _, _ => none

/-- JS truthiness of a parsed value (`NaN` cannot occur in parsed JSON). -/
def jsTruthy : Json → Bool
  | Json.null => false
  | Json.bool b => b
  | Json.num q => q != 0
  | Json.str s => s != ""
  | Json.arr _ => true
  | Json.obj _ => true

/-- The JS idiom `x.f || d`: the field when present and truthy, else `d`. -/
def jsOr (v : Option Json) (d : Json) : Json :=
  match v with
  | some j => if jsTruthy j then j else d
  | none => d

/-- `Math.round`: round half toward positive infinity. -/
def jsRound (q : ℚ) : ℤ := ⌊q + 1/2⌋

/-- JS number-to-integer truncation toward zero, as used by the `%`
operator's quotient. -/
def jsTrunc (q : ℚ) : ℤ := if 0 ≤ q then ⌊q⌋ else -⌊-q⌋

/-- JS `x % 1`: fractional part carrying the sign of the dividend. -/
def jsMod1 (q : ℚ) : ℚ := q - jsTrunc q

/-- `parseFloat(x.toFixed(1))`: round to one decimal place. -/
def round1 (q : ℚ) : ℚ := (jsRound (q * 10) : ℚ) / 10

/-- `parseInt` applied to the leading characters of a string: optional
sign followed by decimal digits; `none` models `NaN`.  (Leading
whitespace and radix prefixes do not occur in the data this program
feeds to `parseInt`.) -/
def parseIntPfx (s : String) : Option ℤ :=
  let core (cs : List Char) : Option ℕ :=
    let digits := cs.takeWhile (·.isDigit)
    if digits.isEmpty then none
    else some (digits.foldl (fun acc c => acc * 10 + (c.toNat - '0'.toNat)) 0)
  match s.toList with
  | '-' :: rest => (core rest).map (fun n => -(n : ℤ))
  | '+' :: rest => (core rest).map (fun n => (n : ℤ))
  | cs => (core cs).map (fun n => (n : ℤ))

/-- `parseFloat` applied to the leading characters of a string:
optional sign, integer digits, optional fractional digits; `none`
models `NaN`.  (Exponent forms do not occur in the data this program
feeds to `parseFloat`.) -/
def parseFloatPfx (s : String) : Option ℚ :=
  let digitsVal (cs : List Char) : ℕ :=
    cs.foldl (fun acc c => acc * 10 + (c.toNat - '0'.toNat)) 0
  let core (cs : List Char) : Option ℚ :=
    let intDigits := cs.takeWhile (·.isDigit)
    let rest := cs.dropWhile (·.isDigit)
    let fracDigits :=
      match rest with
      | '.' :: tl => tl.takeWhile (·.isDigit)
      | _ => []
    if intDigits.isEmpty ∧ fracDigits.isEmpty then none
    else some ((digitsVal intDigits : ℚ) +
      (digitsVal fracDigits : ℚ) / ((10 : ℚ) ^ fracDigits.length))
  match s.toList with
  | '-' :: rest => (core rest).map (fun q => -q)
  | '+' :: rest => (core rest).map (fun q => q)
  | cs => core cs

/-- `parseInt` applied to a parsed JSON value.  On a number it
truncates toward zero (via the decimal string rendering); on a string
it parses a leading integer; anything else is `NaN` (`none`).
(The JS string coercion of arrays/objects is not modelled; this
program only ever receives numbers or strings here.) -/
def jsParseInt : Json → Option ℤ
  | Json.num q => some (jsTrunc q)
  | Json.str s => parseIntPfx s
  | _ => none

/-- `parseFloat` applied to a parsed JSON value, `none` modelling `NaN`. -/
def jsParseFloat : Option Json → Option ℚ
  | some (Json.num q) => some q
  | some (Json.str s) => parseFloatPfx s
  | _ => none

/-- `toLowerCase` (the data this program lowercases is ASCII). -/
def strToLower (s : String) : String := String.mk (s.data.map Char.toLower)

/-- `x?.toLowerCase()` on a field value: `.ok none` for a missing or
null field (optional chaining yields `undefined`), `.ok (some s)` for a
string, and `.error` for any other value (`.toLowerCase` is not a
function — the `TypeError` propagates to the enclosing `catch`). -/
def jsToLowerOpt : Option Json → Except Unit (Option String)
  | none => .ok none
  | some Json.null => .ok none
  | some (Json.str s) => .ok (some (strToLower s))
  | some _ => .error ()

/-- `n.toString().padStart(2, '0')` for the nonnegative integers this
program formats into times and dates. -/
def pad2 (n : ℤ) : String :=
  if 0 ≤ n ∧ n < 10 then "0" ++ toString n else toString n

/-- A list contains a given character sequence as a contiguous run. -/
def hasSub (l pat : List Char) : Bool :=
  l.tails.any (fun t => pat.isPrefixOf t)

/-- Whitespace class of the JS `\s` regex atom. -/
def isWs (c : Char) : Bool := c.isWhitespace

/-- Word class of the JS `\w` regex atom. -/
def isWordChar (c : Char) : Bool := c.isAlphanum || c == '_'

/-- A position-anchored pattern holds somewhere in the list. -/
def scanAny (p : List Char → Bool) : List Char → Bool
  | [] => p []
  | c :: rest => p (c :: rest) || scanAny p rest

/-- `\d+\s*P` matches at the head: a digit, further digits, optional
whitespace, then one of the literal alternatives `P`. -/
def digitThenAlts (alts : List (List Char)) (l : List Char) : Bool :=
  match l with
  | [] => false
  | c :: rest =>
    c.isDigit &&
      (let afterDigits := rest.dropWhile (·.isDigit)
       let afterWs := afterDigits.dropWhile isWs
       alts.any (fun a => a.isPrefixOf afterWs))

/-- `by\s+\w` matches at the head. -/
def byThenWord (l : List Char) : Bool :=
  match l with
  | 'b' :: 'y' :: rest =>
    (match rest with
     | c :: _ => isWs c
     | [] => false) &&
      (match rest.dropWhile isWs with
       | c :: _ => isWordChar c
       | [] => false)
  | _ => false

/-- JS's `"str".split(/\s+/).length`: one more than the number of
maximal whitespace runs (a leading or trailing run contributes an empty
fragment, exactly as in JS). -/
def wsRuns : Bool → List Char → ℕ
  | _, [] => 0
  | inRun, c :: cs =>
    if isWs c then (if inRun then wsRuns true cs else 1 + wsRuns true cs)
    else wsRuns false cs

def jsSplitWsCount (s : String) : ℕ := wsRuns false s.toList + 1

/-- JS `map` with the element index, as used by every agent. -/
def mapWithIndex (f : ℕ → α → β) (l : List α) : List β :=
  go 0 l
where
  go : ℕ → List α → List β
    | _, [] => []
    | i, a :: as => f i a :: go (i + 1) as

/-! ## Calendar arithmetic

`calculateDate` parses an ISO `YYYY-MM-DD` string, adds a day offset
(`setDate`), and re-renders the ISO date, all in UTC — modelled with
the standard civil-calendar/day-number conversion.  (An unparsable date
string makes the JS `toISOString` throw; the claims only exercise valid
ISO inputs, for which this model is exact.) -/

/-- Days since 1970-01-01 of a proleptic-Gregorian civil date. -/
def daysFromCivil (y : ℤ) (m : ℤ) (d : ℤ) : ℤ :=
  let y' := if m ≤ 2 then y - 1 else y
  let era := y' / 400
  let yoe := y' - era * 400
  let mp := if 2 < m then m - 3 else m + 9
  let doy := (153 * mp + 2) / 5 + d - 1
  let doe := yoe * 365 + yoe / 4 - yoe / 100 + doy
  era * 146097 + doe - 719468

/-- Civil date (year, month, day) of a days-since-epoch count. -/
def civilFromDays (z : ℤ) : ℤ × ℤ × ℤ :=
  let z' := z + 719468
  let era := z' / 146097
  let doe := z' - era * 146097
  let yoe := (doe - doe / 1460 + doe / 36524 - doe / 146096) / 365
  let y' := yoe + era * 400
  let doy := doe - (365 * yoe + yoe / 4 - yoe / 100)
  let mp := (5 * doy + 2) / 153
  let d := doy - (153 * mp + 2) / 5 + 1
  let m := if mp < 10 then mp + 3 else mp - 9
  (if m ≤ 2 then y' + 1 else y', m, d)

/-- Parse `"YYYY-MM-DD"`. -/
def parseIsoDate (s : String) : Option (ℤ × ℤ × ℤ) :=
  match (s.splitOn "-").map String.toNat? with
  | [some y, some m, some d] => some ((y : ℤ), (m : ℤ), (d : ℤ))
  | _ => none

def pad4 (n : ℤ) : String :=
  if 0 ≤ n ∧ n < 10 then "000" ++ toString n
  else if 0 ≤ n ∧ n < 100 then "00" ++ toString n
  else if 0 ≤ n ∧ n < 1000 then "0" ++ toString n
  else toString n

def renderIsoDate : ℤ × ℤ × ℤ → String
  | (y, m, d) => pad4 y ++ "-" ++ pad2 m ++ "-" ++ pad2 d

/-! ## Goal analyzer (`agents/goalAnalyzer.js`, class `GoalAnalyzerAgent`) -/

/-- The structured goal descriptor built by `parseResponse` /
`createFallbackAnalysis`.  `parsedDeadline`, `subject` and
`recommendedApproach` are stored raw (any truthy JSON value passes
through); `complexity` is always a string thanks to
`validateComplexity`.  The `analyzedAt` timestamp is omitted. -/
structure GoalDescriptor where
  originalGoal : String
  parsedDeadline : Json
  subject : Json
  complexity : String
  recommendedApproach : Json
deriving Inhabited

namespace GoalAnalyzerAgent

/-- `validateComplexity`: keep a lowercased value in
`{low, medium, high}`, else default to `"medium"`.  The argument is the
result of `complexity?.toLowerCase()` (`none` = `undefined`). -/
def validateComplexity (c : Option String) : String :=
  match c with
  | some s => if s = "low" ∨ s = "medium" ∨ s = "high" then s else "medium"
  | none => "medium"

/-- Heuristic deadline detection,
regex `/(\d+\s*(day|week|month|year)|deadline|by\s+\w+)/i`. -/
def hasDeadlineHeuristic (goalText : String) : Bool :=
  let cs := goalText.data.map Char.toLower
  scanAny (digitThenAlts
    ["day".toList, "week".toList, "month".toList, "year".toList]) cs ||
  hasSub cs "deadline".toList || scanAny byThenWord cs

/-- `createFallbackAnalysis`: the heuristic goal analysis used when the
generated response could not be parsed.  (The `note` marker field and
the timestamp are omitted.) -/
def createFallbackAnalysis (goalText : String) : GoalDescriptor :=
  let hasDeadline := hasDeadlineHeuristic goalText
  let wordCount := jsSplitWsCount goalText
  { originalGoal := goalText
    parsedDeadline :=
      Json.str (if hasDeadline then "deadline mentioned" else "not specified")
    subject := Json.str (goalText.take 50 ++
      (if 50 < goalText.length then "..." else ""))
    complexity :=
      if 20 < wordCount then "high"
      else if 10 < wordCount then "medium" else "low"
    recommendedApproach :=
      Json.str "Break goal into smaller, manageable tasks and set milestones" }

/-- `parseResponse`: build the descriptor from the parse outcome of the
generated text.  A totally unparsable response (`none`), a parsed
`null` (whose property access throws), or a non-string non-null
`complexity` (whose `.toLowerCase()` throws) all land in the `catch`
and fall back to the heuristic analysis. -/
def parseResponse (parsed : Option Json) (originalGoal : String) :
    GoalDescriptor :=
  match parsed with
  | none => createFallbackAnalysis originalGoal
  | some Json.null => createFallbackAnalysis originalGoal
  | some j =>
    match jsToLowerOpt (getField j "complexity") with
    | .error _ => createFallbackAnalysis originalGoal
    | .ok c =>
      { originalGoal := originalGoal
        parsedDeadline :=
          jsOr (getField j "parsedDeadline") (Json.str "not specified")
        subject := jsOr (getField j "subject") (Json.str "General task")
        complexity := validateComplexity c
        recommendedApproach := jsOr (getField j "recommendedApproach")
          (Json.str "Break down into smaller tasks") }

/-- `analyzeGoal`: on a successful generation the parse outcome is
turned into a descriptor (falling back to the heuristic analysis when
unparsable); when the generation call rejects, the `catch` block
re-throws `Failed to analyze goal: …` — it does not fall back, and the
goal text is never inspected for emptiness. -/
def analyzeGoal (gen : Except String (Option Json)) (goalText : String) :
    Except String GoalDescriptor :=
  match gen with
  | .error e => .error ("Failed to analyze goal: " ++ e)
  | .ok parsed => .ok (parseResponse parsed goalText)

end GoalAnalyzerAgent

/-! ## Task decomposer (`agents/taskDecomposer.js`, class `TaskDecomposerAgent`) -/

/-- A task as produced by decomposition and enriched by scoring.
`description`, `order` and `scoreReasoning` hold raw JSON values
(truthy model output passes through unvalidated); `priorityScore` is
`none` until the scorer fills it in.  `createdAt` and `goalReference`
metadata are omitted; `Date.now()` in ids is the `now` parameter. -/
structure Task where
  id : String
  description : Json
  estimatedHours : ℚ
  priority : String
  order : Json
  status : String
  priorityScore : Option ℤ := none
  scoreReasoning : Json := Json.null
deriving Inhabited

namespace TaskDecomposerAgent

/-- `validateHours`: `parseFloat` outcome (`none` = `NaN`) → hours.
Invalid or non-positive values default to 2, values above 40 are
capped, the rest are rounded to the nearest half. -/
def validateHours (hours : Option ℚ) : ℚ :=
  match hours with
  | none => 2
  | some num =>
    if num ≤ 0 then 2
    else if 40 < num then 40
    else (jsRound (num * 2) : ℚ) / 2

/-- `validatePriority` on the result of `priority?.toLowerCase()`. -/
def validatePriority (p : Option String) : String :=
  match p with
  | some s => if s = "high" ∨ s = "medium" ∨ s = "low" then s else "medium"
  | none => "medium"

/-- One entry of the generated task array, validated and enhanced.
`.error` when the entry is `null` (property access throws) or its
`priority` is a non-string non-null value (`.toLowerCase()` throws);
either error aborts the whole `map` into the `catch`. -/
def taskOfJson (now : ℕ) (i : ℕ) (j : Json) : Except Unit Task :=
  match j with
  | Json.null => .error ()
  | _ =>
    match jsToLowerOpt (getField j "priority") with
    | .error _ => .error ()
    | .ok p =>
      .ok { id := "task_" ++ toString now ++ "_" ++ toString i
            description := jsOr (getField j "description")
              (Json.str ("Task " ++ toString (i + 1)))
            estimatedHours := validateHours (jsParseFloat (getField j "estimatedHours"))
            priority := validatePriority p
            order := jsOr (getField j "order") (Json.num ((i : ℚ) + 1))
            status := "pending" }

/-- The `tasks.map((task, index) => …)` body, short-circuiting on a
thrown entry. -/
def tasksOfJsonList (now : ℕ) : ℕ → List Json → Except Unit (List Task)
  | _, [] => .ok []
  | i, j :: rest =>
    match taskOfJson now i j with
    | .error _ => .error ()
    | .ok t =>
      match tasksOfJsonList now (i + 1) rest with
      | .error _ => .error ()
      | .ok ts => .ok (t :: ts)

/-- `createFallbackTasks`: complexity-scaled synthetic tasks
(`high→5, medium→4, low/other→3`; base hours 3/2/1.5 plus half an hour
per step; first two high priority, the rest medium). -/
def createFallbackTasks (now : ℕ) (analyzedGoal : GoalDescriptor) : List Task :=
  let taskCount : ℕ :=
    if analyzedGoal.complexity = "high" then 5
    else if analyzedGoal.complexity = "medium" then 4 else 3
  let baseHours : ℚ :=
    if analyzedGoal.complexity = "high" then 3
    else if analyzedGoal.complexity = "medium" then 2 else 3/2
  (List.range taskCount).map (fun (i : ℕ) =>
    { id := "task_" ++ toString now ++ "_" ++ toString i
      description := Json.str ("Step " ++ toString (i + 1) ++ ": Work on " ++
        analyzedGoal.originalGoal)
      estimatedHours := baseHours + (i : ℚ) * (1/2)
      priority := if i < 2 then "high" else "medium"
      order := Json.num ((i : ℚ) + 1)
      status := "pending" })

/-- `parseResponse`: a parsed array is validated entry by entry (an
entry that throws sends the whole call to the fallback); a parse
failure or a non-array lands in the `catch` and yields the fallback
tasks.  A parsed *empty* array maps to the empty task list. -/
def parseResponse (now : ℕ) (parsed : Option Json)
    (analyzedGoal : GoalDescriptor) : List Task :=
  match parsed with
  | some (Json.arr entries) =>
    match tasksOfJsonList now 0 entries with
    | .ok ts => ts
    | .error _ => createFallbackTasks now analyzedGoal
  | _ => createFallbackTasks now analyzedGoal

/-- `decompose`: parse a successful generation; when the generation
call rejects, the `catch` re-throws `Failed to decompose tasks: …` — it
does not fall back. -/
def decompose (now : ℕ) (gen : Except String (Option Json))
    (analyzedGoal : GoalDescriptor) : Except String (List Task) :=
  match gen with
  | .error e => .error ("Failed to decompose tasks: " ++ e)
  | .ok parsed => .ok (parseResponse now parsed analyzedGoal)

end TaskDecomposerAgent

/-! ## Priority scorer (`agents/priorityScorer.js`, class `PriorityScorerAgent`) -/

/-- The user context destructured by `applyFallbackScoring`:
`{ deadline, userTendency = 'balanced' }`.  `none` models an absent
property. -/
structure ScoringContext where
  deadline : Option String := none
  userTendency : Option String := none
deriving Inhabited

namespace PriorityScorerAgent

/-- `validateScore` applied to the `parseInt` outcome of the model's
score (`none` = `NaN`): default 5, clamp to `[1, 10]`. -/
def validateScore (score : Option ℤ) : ℤ :=
  match score with
  | none => 5
  | some num => if num < 1 then 1 else if 10 < num then 10 else num

/-- `calculateFallbackScore`: per-task heuristic for a task the model's
array did not cover.  Base 5, +2 high / −1 low priority, +1 for the
first two positions; all integer arithmetic, so the final
`Math.round` is the identity; clamped to `[1, 10]`. -/
def calculateFallbackScore (task : Task) (index : ℕ) : ℤ :=
  let score : ℤ := 5
  let score := if task.priority = "high" then score + 2 else score
  let score := if task.priority = "low" then score - 1 else score
  let score := if index < 2 then score + 1 else score
  max 1 (min 10 score)

/-- The urgency regex `/(\d+\s*(day|week)|tomorrow|urgent)/i`. -/
def hasUrgentDeadline (deadline : String) : Bool :=
  let cs := deadline.data.map Char.toLower
  scanAny (digitThenAlts ["day".toList, "week".toList]) cs ||
  hasSub cs "tomorrow".toList || hasSub cs "urgent".toList

/-- The deadline bonus of `applyFallbackScoring`: +2 when a truthy
deadline other than `"not specified"` matches the urgency regex. -/
def deadlineBonus (deadline : Option String) : ℚ :=
  match deadline with
  | some d =>
    if d ≠ "" ∧ d ≠ "not specified" ∧ hasUrgentDeadline d then 2 else 0
  | none => 0

/-- `applyFallbackScoring`: the richer rule-based scoring applied to
every task.  Base 5; +3 high / −2 low priority; positional bonus
`max(0, 3 − index·0.5)`; deadline urgency +2; +1 for the first two
tasks of a procrastinator; rounded then clamped to `[1, 10]`. -/
def applyFallbackScoring (tasks : List Task) (context : ScoringContext) :
    List Task :=
  let userTendency := context.userTendency.getD "balanced"
  mapWithIndex (fun index task =>
    let score : ℚ := 5
    let score := if task.priority = "high" then score + 3 else score
    let score := if task.priority = "low" then score - 2 else score
    let score := score + max 0 (3 - (index : ℚ) * (1/2))
    let score := score + deadlineBonus context.deadline
    let score :=
      if userTendency = "procrastinator" ∧ index < 2 then score + 1 else score
    { task with
      priorityScore := some (max 1 (min 10 (jsRound score)))
      scoreReasoning := Json.str "Rule-based scoring (fallback)" }) tasks

/-- `scores.find(s => s.taskIndex === index)`: scan left to right; a
`null` entry reached before a match makes the property access throw
(`.error`), which sends the whole `parseResponse` to its fallback. -/
def findScore (index : ℕ) : List Json → Except Unit (Option Json)
  | [] => .ok none
  | Json.null :: _ => .error ()
  | s :: rest =>
    match getField s "taskIndex" with
    | some (Json.num q) =>
      if q = (index : ℚ) then .ok (some s) else findScore index rest
    | _ => findScore index rest

/-- The `tasks.map((task, index) => …)` body of the scorer's
`parseResponse`, short-circuiting when a `find` throws. -/
def applyScores (scores : List Json) : ℕ → List Task → Except Unit (List Task)
  | _, [] => .ok []
  | index, task :: rest =>
    match findScore index scores with
    | .error _ => .error ()
    | .ok scoreData =>
      let task' :=
        match scoreData with
        | some sd =>
          { task with
            priorityScore := some (validateScore (jsParseInt
              ((getField sd "score").getD Json.null)))
            scoreReasoning := jsOr (getField sd "reasoning")
              (Json.str "Fallback scoring applied") }
        | none =>
          { task with
            priorityScore := some (calculateFallbackScore task index)
            scoreReasoning := Json.str "Fallback scoring applied" }
      match applyScores scores (index + 1) rest with
      | .error _ => .error ()
      | .ok ts => .ok (task' :: ts)

/-- `parseResponse`: a parsed array of score entries is applied per
task; a parse failure, a non-array, or a throwing scan all land in the
`catch`, which calls `applyFallbackScoring(tasks, {})` — with an
*empty* context, not the caller's. -/
def parseResponse (parsed : Option Json) (tasks : List Task) : List Task :=
  match parsed with
  | some (Json.arr scores) =>
    match applyScores scores 0 tasks with
    | .ok ts => ts
    | .error _ => applyFallbackScoring tasks {}
  | _ => applyFallbackScoring tasks {}

/-- `scoreTasks`: parse a successful generation; when the generation
call rejects, the `catch` applies the rule-based fallback with the
caller's context. -/
def scoreTasks (gen : Except String (Option Json)) (tasks : List Task)
    (context : ScoringContext) : List Task :=
  match gen with
  | .error _ => applyFallbackScoring tasks context
  | .ok parsed => parseResponse parsed tasks

end PriorityScorerAgent

/-! ## Scheduler (`agents/scheduler.js`, class `SchedulerAgent`) -/

/-- The scheduling preferences destructured by `createFallbackSchedule`
and `buildPrompt`.  The JS defaults (`4`, `20`, today's date,
`['morning']`) are resolved at the call boundary; `startDate` is an
explicit field because the JS default is the wall clock. -/
structure SchedPrefs where
  availableHoursPerDay : ℚ := 4
  bufferTimePercent : ℚ := 20
  startDate : String
  preferredStudyTimes : List String := ["morning"]
deriving Inhabited

/-- One scheduled task instance of the fallback schedule. -/
structure SchedInstance where
  taskDescription : Json
  taskId : String
  priorityScore : Option ℤ
  startTime : String
  duration : ℚ
  bufferAfter : ℚ
deriving Inhabited

/-- One day of the fallback schedule (`createdAt` omitted). -/
structure FallbackDay where
  day : ℕ
  date : String
  tasks : List SchedInstance
  totalHours : ℚ
  timeOfDay : String
deriving Inhabited

/-- The summary of the fallback schedule.  `averageHoursPerDay` is the
string `(totalHours / schedule.length).toFixed(1)` — `"NaN"` when both
are zero, since JS division by zero is unguarded.  (`generatedAt` and
the `note` marker are omitted.) -/
structure FallbackSummary where
  totalDays : ℕ
  totalHours : ℚ
  averageHoursPerDay : String
  tasksScheduled : ℕ
deriving Inhabited

structure FallbackSchedule where
  schedule : List FallbackDay
  summary : FallbackSummary
deriving Inhabited

/-- A day of a successfully parsed generated schedule: every field is
taken raw from the model output, with `||`-defaults only.  In
particular `tasks` need not even be an array and none of its entries
are validated. -/
structure ParsedDay where
  day : Json
  date : Json
  tasks : Json
  totalHours : Json
  timeOfDay : Json
deriving Inhabited

structure ParsedSummary where
  totalDays : Json
  totalHours : Json
  averageHoursPerDay : Json
  tasksScheduled : ℕ
deriving Inhabited

structure ParsedSchedule where
  schedule : List ParsedDay
  summary : ParsedSummary
deriving Inhabited

/-- `createSchedule`/`parseResponse` produce either the normalized
generated schedule or the rule-based fallback. -/
inductive ScheduleResult where
  | parsed (p : ParsedSchedule)
  | fallback (f : FallbackSchedule)
deriving Inhabited

namespace SchedulerAgent

/-- `calculateDate`: `startDate + dayOffset` days, rendered ISO.
(An unparsable start date would make the JS throw; modelled total via
the epoch default, never exercised by the claims.) -/
def calculateDate (startDateStr : String) (dayOffset : ℕ) : String :=
  let civil := (parseIsoDate startDateStr).getD (1970, 1, 1)
  renderIsoDate (civilFromDays
    (daysFromCivil civil.1 civil.2.1 civil.2.2 + (dayOffset : ℤ)))

/-- `calculateStartTime`: base hour by time of day (morning 9,
afternoon 14, evening 18, default 9) plus the whole hours already
accumulated; minutes from the fractional remainder. -/
def calculateStartTime (hoursIntoDay : ℚ) (timeOfDay : String) : String :=
  let baseHour : ℤ :=
    if timeOfDay = "morning" then 9
    else if timeOfDay = "afternoon" then 14
    else if timeOfDay = "evening" then 18 else 9
  let hour := baseHour + ⌊hoursIntoDay⌋
  let minutes := jsRound (jsMod1 hoursIntoDay * 60)
  pad2 hour ++ ":" ++ pad2 minutes

/-- `calculateTotalHours`: `parseFloat(sum.toFixed(1))` of the tasks'
estimates. -/
def calculateTotalHours (tasks : List Task) : ℚ :=
  round1 ((tasks.map (·.estimatedHours)).sum)

/-- `(task.priorityScore || 5)` — an absent (or zero) score counts
as 5 in the sort comparator. -/
def scoreOr5 (t : Task) : ℤ :=
  match t.priorityScore with
  | some n => if n ≠ 0 then n else 5
  | none => 5

/-- `[...tasks].sort((a, b) => (b.priorityScore||5) - (a.priorityScore||5))`:
stable descending sort by score. -/
def sortByScoreDesc (tasks : List Task) : List Task :=
  tasks.mergeSort (fun a b => scoreOr5 b ≤ scoreOr5 a)

/-- The mutable state of the fallback scheduling loop. -/
structure BuildState where
  schedule : List FallbackDay
  currentDay : ℕ
  currentDayHours : ℚ
  currentDayTasks : List SchedInstance

/-- Close the open day into a `FallbackDay` record. -/
def closeDay (prefs : SchedPrefs) (st : BuildState) : FallbackDay :=
  { day := st.currentDay + 1
    date := calculateDate prefs.startDate st.currentDay
    tasks := st.currentDayTasks
    totalHours := round1 st.currentDayHours
    timeOfDay := jsOrStr prefs.preferredStudyTimes.head? "morning" }
where
  /-- `preferredStudyTimes[0] || 'morning'`. -/
  jsOrStr (o : Option String) (d : String) : String :=
    match o with
    | some s => if s ≠ "" then s else d
    | none => d

/-- The scheduled instance pushed for one task. -/
def mkInstance (prefs : SchedPrefs) (task : Task) (hoursIntoDay : ℚ) :
    SchedInstance :=
  { taskDescription := task.description
    taskId := task.id
    priorityScore := task.priorityScore
    startTime := calculateStartTime hoursIntoDay
      (prefs.preferredStudyTimes.headD "morning")
    duration := task.estimatedHours
    bufferAfter := round1 (task.estimatedHours * (prefs.bufferTimePercent / 100)) }

/-- One iteration of the `sortedTasks.forEach` loop: close the current
day when the buffered task would overflow the cap and the day is
non-empty, then append the task. -/
def schedStep (prefs : SchedPrefs) (st : BuildState) (task : Task) :
    BuildState :=
  let taskDuration := task.estimatedHours
  let bufferTime := taskDuration * (prefs.bufferTimePercent / 100)
  let totalTime := taskDuration + bufferTime
  let st' :=
    if prefs.availableHoursPerDay < st.currentDayHours + totalTime ∧
        0 < st.currentDayTasks.length then
      { schedule := st.schedule ++ [closeDay prefs st]
        currentDay := st.currentDay + 1
        currentDayHours := 0
        currentDayTasks := [] }
    else st
  { st' with
    currentDayTasks :=
      st'.currentDayTasks ++ [mkInstance prefs task st'.currentDayHours]
    currentDayHours := st'.currentDayHours + totalTime }

/-- `createFallbackSchedule`: first-fit decreasing-by-score bin
packing, then the summary over the *input* tasks. -/
def createFallbackSchedule (tasks : List Task) (prefs : SchedPrefs) :
    FallbackSchedule :=
  let sortedTasks := sortByScoreDesc tasks
  let final := sortedTasks.foldl (schedStep prefs) ⟨[], 0, 0, []⟩
  let schedule := final.schedule ++
    (if 0 < final.currentDayTasks.length then [closeDay prefs final] else [])
  let totalHours := calculateTotalHours tasks
  { schedule := schedule
    summary :=
      { totalDays := schedule.length
        totalHours := totalHours
        averageHoursPerDay := jsDivToFixed1 totalHours schedule.length
        tasksScheduled := tasks.length } }
where
  /-- `(a / n).toFixed(1)` with JS division-by-zero semantics:
  `0/0 = NaN`, `±x/0 = ±Infinity`; otherwise one decimal place. -/
  jsDivToFixed1 (a : ℚ) (n : ℕ) : String :=
    if n = 0 then
      if a = 0 then "NaN" else if 0 < a then "Infinity" else "-Infinity"
    else
      let scaled := jsRound (a / n * 10)
      (if scaled < 0 then "-" else "") ++
        toString (scaled.natAbs / 10) ++ "." ++ toString (scaled.natAbs % 10)

/-- Normalization of one generated day entry
(`day.day || index+1`, `date` default from the start date, `tasks`
defaulting to `[]`, `totalHours || 0`, `timeOfDay || 'morning'`). -/
def normalizeDay (prefs : SchedPrefs) (index : ℕ) (d : Json) : ParsedDay :=
  { day := jsOr (getField d "day") (Json.num ((index : ℚ) + 1))
    date := jsOr (getField d "date")
      (Json.str (calculateDate prefs.startDate index))
    tasks := jsOr (getField d "tasks") (Json.arr [])
    totalHours := jsOr (getField d "totalHours") (Json.num 0)
    timeOfDay := jsOr (getField d "timeOfDay") (Json.str "morning") }

/-- `parseResponse`: when the parsed response carries an array
`schedule` field, each day is normalized and the summary defaults to
computed totals only where the model's summary is absent/falsy; any
parse failure or invalid shape falls back to the rule-based schedule. -/
def parseResponse (parsed : Option Json) (tasks : List Task)
    (prefs : SchedPrefs) : ScheduleResult :=
  match parsed with
  | some j =>
    (match getField j "schedule" with
     | some (Json.arr days) =>
       .parsed
         { schedule := mapWithIndex (normalizeDay prefs) days
           summary :=
             { totalDays := jsOr ((getField j "summary").bind
                 (getField · "totalDays")) (Json.num (days.length : ℚ))
               totalHours := jsOr ((getField j "summary").bind
                 (getField · "totalHours"))
                 (Json.num (calculateTotalHours tasks))
               averageHoursPerDay := jsOr ((getField j "summary").bind
                 (getField · "averageHoursPerDay"))
                 (Json.str (createFallbackSchedule.jsDivToFixed1
                   (calculateTotalHours tasks) days.length))
               tasksScheduled := tasks.length } }
     | _ => .fallback (createFallbackSchedule tasks prefs))
  | none => .fallback (createFallbackSchedule tasks prefs)

/-- `createSchedule`: parse a successful generation; when the
generation call rejects, the `catch` builds the rule-based fallback. -/
def createSchedule (gen : Except String (Option Json)) (tasks : List Task)
    (prefs : SchedPrefs) : ScheduleResult :=
  match gen with
  | .error _ => .fallback (createFallbackSchedule tasks prefs)
  | .ok parsed => parseResponse parsed tasks prefs

end SchedulerAgent

/-! ## Reflection (`agents/reflector.js`, class `ReflectionAgent`)

Only the members the claims are about are embedded:
`createFallbackReflection`, `updateMemory` and `needsReplanning`. -/

/-- One task-progress observation consumed by reflection. -/
structure Progress where
  status : String
  taskDescription : String := ""
  scheduledTime : String := ""
  completedTime : Option String := none
  completedOnTime : Bool := false
  priorityScore : Option ℤ := none
deriving Inhabited

/-- One long-term behavioural pattern entry.  `occurrences` is the
upsert counter (`none` models an entry stored without the field);
`firstIdentified`/`lastUpdated` timestamps are omitted. -/
structure PatternEntry where
  pattern : String
  description : String
  confidence : String
  occurrences : Option ℕ
deriving Inhabited, DecidableEq

/-- One entry of the model's `memoryUpdates` array. -/
structure MemoryUpdate where
  pattern : String
  description : String
  confidence : String
deriving Inhabited, DecidableEq

/-- The rolled-up stats recomputed by every `updateMemory` call. -/
structure MemoryStats where
  totalTasksAttempted : ℕ
  totalTasksCompleted : ℕ
  overallCompletionRate : ℚ
deriving Inhabited, DecidableEq

/-- The persistent user memory.  `currentMemory.patterns || []` lets an
absent pattern list be modelled as `[]`. -/
structure UserMemory where
  patterns : List PatternEntry
  stats : Option MemoryStats := none
deriving Inhabited, DecidableEq

/-- `analysis` block of a reflection result. -/
structure ReflectionAnalysis where
  whyTasksMissed : String
  identifiedPatterns : List String
  userTendency : String
deriving Inhabited

/-- `adjustmentsMade` block.  The fallback path stores the insight
strings as its `scheduleChanges`; the parsed path stores raw model
objects — both are JSON values here.  An absent member is `none`
(`?.length` on it is `undefined`). -/
structure AdjustmentsMade where
  scheduleChanges : Option (List Json) := none
  priorityChanges : Option (List Json) := none
  recommendedBufferPercent : Option ℚ := none
deriving Inhabited

/-- `progressAnalyzed` block. -/
structure ProgressAnalyzed where
  totalTasks : ℕ
  completed : ℕ
  missed : ℕ
deriving Inhabited

/-- The reflection result shape shared by both paths (`reflectedAt` and
the fallback's `note` marker omitted).  The plan type is a parameter —
the JS passes whatever plan object it was given straight through. -/
structure ReflectionResult (Plan : Type) where
  adjustedPlan : Plan
  analysis : ReflectionAnalysis
  insights : List String
  memoryUpdates : List MemoryUpdate
  updatedMemory : UserMemory
  adjustmentsMade : AdjustmentsMade
  progressAnalyzed : ProgressAnalyzed
deriving Inhabited

namespace ReflectionAgent

/-- `userProgress.filter(p => p.status === 'completed')`. -/
def completedOf (userProgress : List Progress) : List Progress :=
  userProgress.filter (fun p => p.status == "completed")

/-- `p.status === 'missed' || p.status === 'incomplete'`. -/
def missedOf (userProgress : List Progress) : List Progress :=
  userProgress.filter (fun p => p.status == "missed" || p.status == "incomplete")

/-- `t.completedTime && parseInt(t.completedTime.split(':')[0]) >= 18`. -/
def completedInEvening (t : Progress) : Bool :=
  match t.completedTime with
  | some s =>
    s ≠ "" &&
      (match parseIntPfx (((s.splitOn ":").headD "")) with
       | some n => 18 ≤ n
       | none => false)
  | none => false

/-- `createFallbackReflection`: deterministic rule-based reflection.
The plan is returned unmodified, the memory untouched, insights are
pushed in source order, the buffer recommendation is tiered by
completion rate and the tendency classified from it. -/
def createFallbackReflection {Plan : Type} (currentPlan : Plan)
    (userProgress : List Progress) (userMemory : UserMemory) :
    ReflectionResult Plan :=
  let completedTasks := completedOf userProgress
  let missedTasks := missedOf userProgress
  let completionRate : ℚ :=
    if 0 < userProgress.length then
      (completedTasks.length : ℚ) / (userProgress.length : ℚ) * 100
    else 0
  let insights : List String :=
    (if completionRate < 50 then
      ["Completion rate is low - consider reducing daily workload"] else []) ++
    (if completedTasks.length < missedTasks.length then
      ["More tasks missed than completed - time estimates may be too optimistic"]
     else []) ++
    (if (completedTasks.length : ℚ) * (3/5) <
        ((completedTasks.filter completedInEvening).length : ℚ) then
      ["User tends to complete tasks in the evening"] else [])
  let recommendedBuffer : ℚ :=
    if completionRate < 60 then 30 else if completionRate < 80 then 20 else 15
  { adjustedPlan := currentPlan
    analysis :=
      { whyTasksMissed :=
          if 0 < missedTasks.length then
            "Likely due to time underestimation or scheduling conflicts"
          else "No significant issues detected"
        identifiedPatterns := ["Pattern detection limited in fallback mode"]
        userTendency :=
          if 80 < completionRate then "realistic"
          else if 50 < completionRate then "slightly optimistic"
          else "overly optimistic" }
    insights := insights
    memoryUpdates := []
    updatedMemory := userMemory
    adjustmentsMade :=
      { recommendedBufferPercent := some recommendedBuffer
        scheduleChanges := some (insights.map Json.str)
        priorityChanges := none }
    progressAnalyzed :=
      { totalTasks := userProgress.length
        completed := completedTasks.length
        missed := missedTasks.length } }

/-- `(existing.occurrences || 1)` — JS `0` is falsy. -/
def occOr1 (o : Option ℕ) : ℕ :=
  match o with
  | some n => if n = 0 then 1 else n
  | none => 1

/-- The merged entry `{...existing, ...update, occurrences: (existing.occurrences || 1) + 1}`. -/
def mergeEntry (p : PatternEntry) (u : MemoryUpdate) : PatternEntry :=
  { pattern := u.pattern
    description := u.description
    confidence := u.confidence
    occurrences := some (occOr1 p.occurrences + 1) }

/-- A freshly pushed entry `{...update, occurrences: 1}`. -/
def newEntry (u : MemoryUpdate) : PatternEntry :=
  { pattern := u.pattern
    description := u.description
    confidence := u.confidence
    occurrences := some 1 }

/-- One iteration of the `newPatterns.forEach` upsert: replace the
first entry with the same `pattern` key (`findIndex` + assignment), or
push a new entry at the end. -/
def upsertPattern : List PatternEntry → MemoryUpdate → List PatternEntry
  | [], u => [newEntry u]
  | p :: ps, u =>
    if p.pattern = u.pattern then mergeEntry p u :: ps
    else p :: upsertPattern ps u

/-- `updateMemory`: upsert each memory update in order, then recompute
the rolled-up stats from the observation set. -/
def updateMemory (currentMemory : UserMemory) (memoryUpdates : List MemoryUpdate)
    (userProgress : List Progress) : UserMemory :=
  let patterns := memoryUpdates.foldl upsertPattern currentMemory.patterns
  let completedCount := (completedOf userProgress).length
  let totalCount := userProgress.length
  let completionRate : ℚ :=
    if 0 < totalCount then (completedCount : ℚ) / (totalCount : ℚ) * 100 else 0
  { currentMemory with
    patterns := patterns
    stats := some
      { totalTasksAttempted := totalCount
        totalTasksCompleted := completedCount
        overallCompletionRate := round1 completionRate } }

/-- `adjustmentsMade?.xs?.length > k` (`undefined > k` is false). -/
def optLenGt (o : Option (List Json)) (k : ℕ) : Bool :=
  match o with
  | some l => k < l.length
  | none => false

/-- `needsReplanning` over the destructured
`{ progressAnalyzed, adjustmentsMade }`: completion rate below 50%
(an empty observation set counts as 100%), more than 3 schedule
changes, or more than 2 priority changes. -/
def needsReplanning (progressAnalyzed : ProgressAnalyzed)
    (adjustmentsMade : AdjustmentsMade) : Bool :=
  let completionRate : ℚ :=
    if 0 < progressAnalyzed.totalTasks then
      (progressAnalyzed.completed : ℚ) / (progressAnalyzed.totalTasks : ℚ) * 100
    else 100
  if completionRate < 50 then true
  else if optLenGt adjustmentsMade.scheduleChanges 3 then true
  else if optLenGt adjustmentsMade.priorityChanges 2 then true
  else false

end ReflectionAgent

/-! ## Measures used to state the verified properties

These definitions formalize the quantities the specification talks
about (summed estimates, per-day scheduled load, pattern keys); they
are not part of the program. -/

/-- `sum(task.estimatedHours for all tasks)`. -/
def sumEst (tasks : List Task) : ℚ := (tasks.map (·.estimatedHours)).sum

/-- A scheduled instance's duration plus its
`bufferTimePercent`-derived buffer. -/
def instLoad (pct : ℚ) (inst : SchedInstance) : ℚ :=
  inst.duration + inst.duration * (pct / 100)

/-- A fallback day's accumulated hours: task durations plus their
derived buffers. -/
def dayLoad (pct : ℚ) (day : FallbackDay) : ℚ :=
  (day.tasks.map (instLoad pct)).sum

/-- The sum of scheduled instance durations of one fallback day. -/
def dayDurSum (day : FallbackDay) : ℚ := (day.tasks.map (·.duration)).sum

/-- The sum of scheduled instance durations across all fallback days. -/
def schedDurSum (days : List FallbackDay) : ℚ := (days.map dayDurSum).sum

/-- Total scheduled duration tracked through the fallback build loop:
closed days plus the open day. -/
def stateDur (st : SchedulerAgent.BuildState) : ℚ :=
  schedDurSum st.schedule + (st.currentDayTasks.map (·.duration)).sum

/-- The per-day schedule invariant: a closed day is non-empty, and a
day holding two or more tasks stays within the daily cap. -/
def DayOk (prefs : SchedPrefs) (d : FallbackDay) : Prop :=
  1 ≤ d.tasks.length ∧
    (2 ≤ d.tasks.length →
      dayLoad prefs.bufferTimePercent d ≤ prefs.availableHoursPerDay)

/-- The loop invariant of the fallback scheduler. -/
def SchedInv (prefs : SchedPrefs) (st : SchedulerAgent.BuildState) : Prop :=
  (∀ d ∈ st.schedule, DayOk prefs d) ∧
  (2 ≤ st.currentDayTasks.length →
    st.currentDayHours ≤ prefs.availableHoursPerDay) ∧
  (st.currentDayTasks.map (instLoad prefs.bufferTimePercent)).sum =
    st.currentDayHours

/-- The `duration` a raw generated task instance carries (0 when the
field is missing or not a number). -/
def parsedInstDur (j : Json) : ℚ :=
  match getField j "duration" with
  | some (Json.num q) => q
  | _ => 0

/-- The summed durations of one normalized generated day. -/
def parsedDayDurSum (d : ParsedDay) : ℚ :=
  match d.tasks with
  | Json.arr l => (l.map parsedInstDur).sum
  | _ => 0

/-- The `summary.totalHours` a schedule result carries. -/
def resultTotalHoursJson : ScheduleResult → Json
  | .parsed p => p.summary.totalHours
  | .fallback f => Json.num f.summary.totalHours

/-- The sum of scheduled instance durations across a schedule result. -/
def resultDurSum : ScheduleResult → ℚ
  | .parsed p => (p.schedule.map parsedDayDurSum).sum
  | .fallback f => schedDurSum f.schedule

/-- The `pattern` keys of a memory's pattern list. -/
def patternKeys (ps : List PatternEntry) : List String := ps.map (·.pattern)

/-- The first pattern entry stored under a key. -/
def findPattern (ps : List PatternEntry) (key : String) : Option PatternEntry :=
  ps.find? (fun p => p.pattern == key)

/-- The richer fallback-scoring heuristic as one closed formula:
base 5; +3 high / −2 low priority; positional bonus
`max(0, 3 − index·0.5)`; +2 deadline urgency; +1 for the first two
tasks of a procrastinator; rounded then clamped to `[1, 10]`. -/
def specRicherHeuristic (ctx : ScoringContext) (task : Task) (index : ℕ) : ℤ :=
  max 1 (min 10 (jsRound (5 +
    (if task.priority = "high" then 3 else 0) +
    (if task.priority = "low" then -2 else 0) +
    max 0 (3 - (index : ℚ) * (1/2)) +
    PriorityScorerAgent.deadlineBonus ctx.deadline +
    (if ctx.userTendency.getD "balanced" = "procrastinator" ∧ index < 2
      then 1 else 0))))

/-! ## Concrete sample data

Fixed inputs used by the witnesses and counterexamples below. -/

def sampleGoal : GoalDescriptor :=
  { originalGoal := "Learn Python basics in 2 weeks"
    parsedDeadline := Json.str "not specified"
    subject := Json.str "General task"
    complexity := "medium"
    recommendedApproach := Json.str "plan" }

def sampleTaskHigh : Task :=
  { id := "t1", description := Json.str "Set up the environment"
    estimatedHours := 2, priority := "high", order := Json.num 1
    status := "pending" }

def sampleTaskMedium : Task :=
  { id := "t2", description := Json.str "Practice exercises"
    estimatedHours := 2, priority := "medium", order := Json.num 1
    status := "pending" }

/-- A context whose deadline matches the urgency regex. -/
def urgentCtx : ScoringContext := { deadline := some "urgent" }

/-- A procrastinator context with an urgency-matching deadline. -/
def procrastinatorCtx : ScoringContext :=
  { deadline := some "by tomorrow", userTendency := some "procrastinator" }

/-- Scheduling preferences with the JS defaults and a fixed start. -/
def samplePrefs : SchedPrefs := { startDate := "2026-01-05" }

/-- A single task whose buffered duration (7.2h) exceeds the 4h cap. -/
def sampleTaskBig : Task :=
  { id := "t3", description := Json.str "Build the final project"
    estimatedHours := 6, priority := "high", order := Json.num 1
    status := "pending", priorityScore := some 5 }

/-- A generated schedule response carrying its own (wrong) totals:
one day with no task instances, and `summary.totalHours = 999`. -/
def sampleParsedResponse : Json :=
  Json.obj
    [("schedule", Json.arr
        [Json.obj [("tasks", Json.arr []), ("totalHours", Json.num 5)]]),
     ("summary", Json.obj [("totalHours", Json.num 999)])]

/-! ## Verified properties -/

/-- C1, counterexample.  With the generation backend unavailable
(`callHuggingFace` rejects after exhausting its retries), `analyzeGoal`
on the non-empty goal `"Learn Python basics in 2 weeks"` re-throws
instead of returning the heuristic fallback descriptor — so the stage
fails on a non-empty goal, contrary to the claim. -/
theorem goalAnalysis_fallback_counterexample :
    GoalAnalyzerAgent.analyzeGoal (.error "All models failed")
      "Learn Python basics in 2 weeks" =
      .error "Failed to analyze goal: All models failed" ∧
    "Learn Python basics in 2 weeks" ≠ "" :=
  ⟨rfl, by decide⟩

/-- C1, amended.  Whenever generation succeeds, `analyzeGoal` returns a
descriptor, and on totally unparsable output it returns the heuristic
fallback descriptor; but when the generation call itself fails it
propagates `Failed to analyze goal: …` regardless of the goal text
(there is no empty-goal check in the agent), so with the backend
unavailable the goal-analysis stage fails rather than the pipeline
proceeding to a plan. -/
theorem goalAnalysis_fallback_amended (goalText e : String) (p : Option Json) :
    (∃ d, GoalAnalyzerAgent.analyzeGoal (.ok p) goalText = .ok d) ∧
    GoalAnalyzerAgent.analyzeGoal (.ok none) goalText =
      .ok (GoalAnalyzerAgent.createFallbackAnalysis goalText) ∧
    GoalAnalyzerAgent.analyzeGoal (.error e) goalText =
      .error ("Failed to analyze goal: " ++ e) :=
  ⟨⟨GoalAnalyzerAgent.parseResponse p goalText, rfl⟩, rfl, rfl⟩

/-- C2, counterexample.  A generated response that parses to the empty
array is an array, so `parseResponse` maps it to the empty task list:
`decompose` *can* return an empty task list. -/
theorem decompose_nonempty_counterexample :
    TaskDecomposerAgent.decompose 0 (.ok (some (Json.arr []))) sampleGoal =
      .ok [] ∧
    ([] : List Task).length = 0 :=
  ⟨rfl, rfl⟩

/-- C2, amended.  When the response is unparsable or parses to a
non-array, `parseResponse` produces the fallback list of exactly
5 tasks for high complexity, 4 for medium and 3 otherwise, with the
first two tasks high priority and the rest medium; but a parseable
*empty* array yields an empty task list, and when the generation call
itself fails `decompose` throws `Failed to decompose tasks: …` instead
of falling back. -/
theorem decompose_fallback_amended (now : ℕ) (g : GoalDescriptor) (j : Json)
    (e : String) (i : ℕ)
    (hi : i < (TaskDecomposerAgent.createFallbackTasks now g).length)
    (hj : ∀ l, j ≠ Json.arr l) :
    TaskDecomposerAgent.parseResponse now none g =
      TaskDecomposerAgent.createFallbackTasks now g ∧
    TaskDecomposerAgent.parseResponse now (some j) g =
      TaskDecomposerAgent.createFallbackTasks now g ∧
    TaskDecomposerAgent.decompose now (.error e) g =
      .error ("Failed to decompose tasks: " ++ e) ∧
    (TaskDecomposerAgent.createFallbackTasks now g).length =
      (if g.complexity = "high" then 5
       else if g.complexity = "medium" then 4 else 3) ∧
    ((TaskDecomposerAgent.createFallbackTasks now g).getD i default).priority =
      (if i < 2 then "high" else "medium") := by
  refine ⟨rfl, ?_, rfl, ?_, ?_⟩
  · cases j with
    | arr l => exact absurd rfl (hj l)
    | null => rfl
    | bool b => rfl
    | num q => rfl
    | str s => rfl
    | obj fields => rfl
  · simp only [TaskDecomposerAgent.createFallbackTasks, List.length_map,
      List.length_range]
  · rw [List.getD_eq_getElem _ _ hi]
    simp only [TaskDecomposerAgent.createFallbackTasks] at hi ⊢
    simp only [List.length_map, List.length_range] at hi
    simp only [List.getElem_map, List.getElem_range]

/-- C2, witness for the amended theorem at a concrete input: a medium
goal's fallback list has 4 tasks and its third task is medium
priority. -/
theorem decompose_fallback_amended_witness :
    (2 < (TaskDecomposerAgent.createFallbackTasks 0 sampleGoal).length ∧
     ∀ l, Json.null ≠ Json.arr l) ∧
    ((TaskDecomposerAgent.createFallbackTasks 0 sampleGoal).getD 2
        default).priority =
      (if 2 < 2 then "high" else "medium") := by
  refine ⟨⟨by simp only [TaskDecomposerAgent.createFallbackTasks,
      List.length_map, List.length_range]; decide,
    fun l h => Json.noConfusion h⟩, ?_⟩
  exact (decompose_fallback_amended 0 _ Json.null "e" 2
    (by simp only [TaskDecomposerAgent.createFallbackTasks,
      List.length_map, List.length_range]; decide)
    (fun l h => Json.noConfusion h)).2.2.2.2

/-- C7.  The rule-based fallback reflection returns the plan and the
memory unmodified, recommends a 30% buffer below 60% completion, 20%
below 80% and 15% otherwise, and classifies the user tendency as
realistic above 80%, slightly optimistic above 50% and overly
optimistic otherwise. -/
theorem reflection_fallback_tiers {Plan : Type} (plan : Plan)
    (progress : List Progress) (memory : UserMemory) :
    let rate : ℚ :=
      if 0 < progress.length then
        ((ReflectionAgent.completedOf progress).length : ℚ) /
          (progress.length : ℚ) * 100
      else 0
    let fb := ReflectionAgent.createFallbackReflection plan progress memory
    fb.adjustedPlan = plan ∧
    fb.updatedMemory = memory ∧
    fb.adjustmentsMade.recommendedBufferPercent =
      some (if rate < 60 then 30 else if rate < 80 then 20 else 15) ∧
    fb.analysis.userTendency =
      (if 80 < rate then "realistic"
       else if 50 < rate then "slightly optimistic"
       else "overly optimistic") :=
  ⟨rfl, rfl, rfl, rfl⟩

/-- C10.  On an empty task list the fallback scheduler returns zero
days, a summary with `totalDays = 0` and `totalHours = 0`, and —
because the average divides by the day count with no zero guard —
`averageHoursPerDay` is the string `"NaN"`. -/
theorem emptySchedule_summary (prefs : SchedPrefs) :
    (SchedulerAgent.createFallbackSchedule [] prefs).schedule = [] ∧
    (SchedulerAgent.createFallbackSchedule [] prefs).summary.totalDays = 0 ∧
    (SchedulerAgent.createFallbackSchedule [] prefs).summary.totalHours = 0 ∧
    (SchedulerAgent.createFallbackSchedule [] prefs).summary.averageHoursPerDay =
      "NaN" := by
  have hround : round1 (0 : ℚ) = 0 := by
    norm_num [round1, jsRound]
  refine ⟨?_, ?_, ?_, ?_⟩ <;>
    simp [SchedulerAgent.createFallbackSchedule, SchedulerAgent.sortByScoreDesc,
      SchedulerAgent.calculateTotalHours,
      SchedulerAgent.createFallbackSchedule.jsDivToFixed1, hround]

/-- Helper for C6: the boolean gate as a disjunction. -/
theorem optLenGt_eq_true_iff (o : Option (List Json)) (k : ℕ) :
    ReflectionAgent.optLenGt o k = true ↔ k < (o.getD []).length := by
  cases o <;> simp [ReflectionAgent.optLenGt]

/-- C6.  With at least one analyzed task, `needsReplanning` is true
exactly when the completion rate is below 50% (completed/total < 1/2),
or more than 3 schedule changes were proposed, or more than 2 priority
changes were; in particular it is false at a rate of at least 50% with
at most 3 schedule changes and at most 2 priority changes. -/
theorem needsReplanning_iff (pa : ProgressAnalyzed) (am : AdjustmentsMade)
    (h : 0 < pa.totalTasks) :
    ReflectionAgent.needsReplanning pa am = true ↔
      (2 * pa.completed < pa.totalTasks ∨
       3 < (am.scheduleChanges.getD []).length ∨
       2 < (am.priorityChanges.getD []).length) := by
  have hT : (0 : ℚ) < (pa.totalTasks : ℚ) := by exact_mod_cast h
  have hrate :
      ((pa.completed : ℚ) / (pa.totalTasks : ℚ) * 100 < 50) ↔
        2 * pa.completed < pa.totalTasks := by
    rw [div_mul_eq_mul_div, div_lt_iff₀ hT]
    constructor
    · intro h'
      have h2 : ((2 : ℚ)) * (pa.completed : ℚ) < (pa.totalTasks : ℚ) := by
        linarith
      exact_mod_cast h2
    · intro h'
      have h2 : ((2 : ℚ)) * (pa.completed : ℚ) < (pa.totalTasks : ℚ) := by
        exact_mod_cast h'
      linarith
  simp only [ReflectionAgent.needsReplanning, if_pos h]
  split_ifs with h1 h2 h3 <;>
    simp_all [optLenGt_eq_true_iff, ← hrate]

/-- C6, witness: 2 completed of 5 analyzed tasks is a 40% rate, and
with no proposed changes the gate fires exactly by the rate clause. -/
theorem needsReplanning_iff_witness :
    0 < (5 : ℕ) ∧
    (ReflectionAgent.needsReplanning ⟨5, 2, 3⟩ ⟨none, none, none⟩ = true ↔
      (2 * 2 < 5 ∨ 3 < (((none : Option (List Json))).getD []).length ∨
       2 < (((none : Option (List Json))).getD []).length)) :=
  ⟨by decide, needsReplanning_iff ⟨5, 2, 3⟩ ⟨none, none, none⟩ (by decide)⟩

/-! ### Helper lemmas: indexed map -/

theorem mapWithIndex_go_length (f : ℕ → α → β) (j : ℕ) (l : List α) :
    (mapWithIndex.go f j l).length = l.length := by
  induction l generalizing j with
  | nil => rfl
  | cons a as ih => simp [mapWithIndex.go, ih]

theorem mapWithIndex_length (f : ℕ → α → β) (l : List α) :
    (mapWithIndex f l).length = l.length :=
  mapWithIndex_go_length f 0 l

theorem mapWithIndex_go_getD (f : ℕ → α → β) (j : ℕ) (l : List α) (i : ℕ)
    (d : β) (d' : α) (h : i < l.length) :
    (mapWithIndex.go f j l).getD i d = f (j + i) (l.getD i d') := by
  induction l generalizing i j with
  | nil => simp at h
  | cons a as ih =>
    cases i with
    | zero => simp [mapWithIndex.go]
    | succ n =>
      have hn : n < as.length := by simpa using h
      simp only [mapWithIndex.go, List.getD_cons_succ]
      rw [ih (j + 1) n hn, show j + 1 + n = j + (n + 1) by omega]

theorem mapWithIndex_getD (f : ℕ → α → β) (l : List α) (i : ℕ) (d : β)
    (d' : α) (h : i < l.length) :
    (mapWithIndex f l).getD i d = f i (l.getD i d') := by
  simpa using mapWithIndex_go_getD f 0 l i d d' h

theorem mapWithIndex_go_forall {P : β → Prop} (f : ℕ → α → β)
    (hf : ∀ i a, P (f i a)) (j : ℕ) (l : List α) :
    ∀ b ∈ mapWithIndex.go f j l, P b := by
  induction l generalizing j with
  | nil => intro b hb; simp [mapWithIndex.go] at hb
  | cons a as ih =>
    intro b hb
    rcases List.mem_cons.mp hb with rfl | hb
    · exact hf j a
    · exact ih (j + 1) b hb

theorem mapWithIndex_forall {P : β → Prop} (f : ℕ → α → β)
    (hf : ∀ i a, P (f i a)) (l : List α) :
    ∀ b ∈ mapWithIndex f l, P b :=
  mapWithIndex_go_forall f hf 0 l

/-! ### Helper lemmas: score bounds -/

theorem validateScore_bounds (s : Option ℤ) :
    1 ≤ PriorityScorerAgent.validateScore s ∧
      PriorityScorerAgent.validateScore s ≤ 10 := by
  cases s with
  | none => exact ⟨by decide, by decide⟩
  | some n =>
    simp only [PriorityScorerAgent.validateScore]
    split_ifs <;> omega

theorem calculateFallbackScore_bounds (t : Task) (i : ℕ) :
    1 ≤ PriorityScorerAgent.calculateFallbackScore t i ∧
      PriorityScorerAgent.calculateFallbackScore t i ≤ 10 := by
  simp only [PriorityScorerAgent.calculateFallbackScore]
  exact ⟨le_max_left _ _, max_le (by norm_num) (min_le_left _ _)⟩

/-- Every task scored by `applyFallbackScoring` carries an integer
score in `[1, 10]`. -/
theorem fallbackScoring_bounds (tasks : List Task) (ctx : ScoringContext) :
    ∀ t ∈ PriorityScorerAgent.applyFallbackScoring tasks ctx,
      ∃ n, t.priorityScore = some n ∧ 1 ≤ n ∧ n ≤ 10 := by
  refine mapWithIndex_forall _ (fun i a => ?_) tasks
  exact ⟨_, rfl, le_max_left _ _, max_le (by norm_num) (min_le_left _ _)⟩

/-- Every task emerging from a successful per-entry score application
carries an integer score in `[1, 10]`. -/
theorem applyScores_bounds (scores : List Json) :
    ∀ (tasks : List Task) (i : ℕ) (ts : List Task),
      PriorityScorerAgent.applyScores scores i tasks = .ok ts →
      ∀ t ∈ ts, ∃ n, t.priorityScore = some n ∧ 1 ≤ n ∧ n ≤ 10 := by
  intro tasks
  induction tasks with
  | nil =>
    intro i ts h t ht
    simp only [PriorityScorerAgent.applyScores] at h
    cases h
    simp at ht
  | cons a as ih =>
    intro i ts h t ht
    simp only [PriorityScorerAgent.applyScores] at h
    cases hf : PriorityScorerAgent.findScore i scores with
    | error e => rw [hf] at h; cases h
    | ok scoreData =>
      rw [hf] at h
      cases hr : PriorityScorerAgent.applyScores scores (i + 1) as with
      | error e => rw [hr] at h; cases h
      | ok ts' =>
        rw [hr] at h
        cases h
        rcases List.mem_cons.mp ht with rfl | hmem
        · cases scoreData with
          | none =>
            exact ⟨_, rfl, calculateFallbackScore_bounds a i⟩
          | some sd =>
            exact ⟨_, rfl, validateScore_bounds _⟩
        · exact ih (i + 1) ts' hr t hmem

/-- Every task returned by any path of `scoreTasks` (parsed scores,
per-task partial fallback, or total fallback) carries an integer score
in `[1, 10]`. -/
theorem scoreTasks_bounds (gen : Except String (Option Json))
    (tasks : List Task) (ctx : ScoringContext) :
    ∀ t ∈ PriorityScorerAgent.scoreTasks gen tasks ctx,
      ∃ n, t.priorityScore = some n ∧ 1 ≤ n ∧ n ≤ 10 := by
  cases gen with
  | error e => exact fallbackScoring_bounds tasks ctx
  | ok parsed =>
    show ∀ t ∈ PriorityScorerAgent.parseResponse parsed tasks, _
    cases parsed with
    | none => exact fallbackScoring_bounds tasks {}
    | some j =>
      cases j with
      | arr scores =>
        simp only [PriorityScorerAgent.parseResponse]
        cases h : PriorityScorerAgent.applyScores scores 0 tasks with
        | ok ts => exact applyScores_bounds scores tasks 0 ts h
        | error e => exact fallbackScoring_bounds tasks {}
      | null => exact fallbackScoring_bounds tasks {}
      | bool b => exact fallbackScoring_bounds tasks {}
      | num q => exact fallbackScoring_bounds tasks {}
      | str s => exact fallbackScoring_bounds tasks {}
      | obj fields => exact fallbackScoring_bounds tasks {}

/-! ### Helper lemmas: validated hours -/

/-- `validateHours` always yields a half-hour multiple in `[0, 40]`,
and yields 0 exactly when the parsed hours lie strictly between
0 and 0.25 (the half-hour rounding sends them to zero). -/
theorem validateHours_spec (ho : Option ℚ) :
    0 ≤ TaskDecomposerAgent.validateHours ho ∧
    TaskDecomposerAgent.validateHours ho ≤ 40 ∧
    (∃ k : ℤ, TaskDecomposerAgent.validateHours ho = (k : ℚ) / 2) ∧
    (TaskDecomposerAgent.validateHours ho = 0 ↔
      ∃ q, ho = some q ∧ 0 < q ∧ q < 1/4) := by
  cases ho with
  | none =>
    refine ⟨by norm_num [TaskDecomposerAgent.validateHours],
      by norm_num [TaskDecomposerAgent.validateHours],
      ⟨4, by norm_num [TaskDecomposerAgent.validateHours]⟩, ?_⟩
    simp [TaskDecomposerAgent.validateHours]
  | some num =>
    simp only [TaskDecomposerAgent.validateHours]
    split_ifs with h1 h2
    · refine ⟨by norm_num, by norm_num, ⟨4, by norm_num⟩, ?_⟩
      constructor
      · intro h; norm_num at h
      · rintro ⟨q, hq, hq0, _⟩
        cases hq
        linarith
    · refine ⟨by norm_num, by norm_num, ⟨80, by norm_num⟩, ?_⟩
      constructor
      · intro h; norm_num at h
      · rintro ⟨q, hq, _, hq4⟩
        cases hq
        linarith
    · push_neg at h1 h2
      have hfl : (0 : ℤ) ≤ jsRound (num * 2) := by
        simp only [jsRound]
        exact Int.floor_nonneg.mpr (by linarith)
      have hfu : jsRound (num * 2) ≤ 80 := by
        simp only [jsRound]
        have : (⌊num * 2 + 1/2⌋ : ℤ) < 81 := by
          rw [Int.floor_lt]
          push_cast
          linarith
        omega
      refine ⟨?_, ?_, ⟨jsRound (num * 2), rfl⟩, ?_⟩
      · positivity
      · rw [div_le_iff₀ (by norm_num : (0:ℚ) < 2)]
        exact_mod_cast (by exact_mod_cast hfu : ((jsRound (num * 2) : ℚ)) ≤ 80)
      · rw [div_eq_zero_iff]
        simp only [Int.cast_eq_zero, jsRound, OfNat.ofNat_ne_zero, or_false]
        rw [Int.floor_eq_zero_iff]
        constructor
        · intro hmem
          exact ⟨num, rfl, h1, by
            have := hmem.2
            simp only [Set.mem_Ico] at hmem
            linarith [hmem.2]⟩
        · rintro ⟨q, hq, hq0, hq4⟩
          cases hq
          constructor
          · linarith
          · show num * 2 + 1/2 < 1
            linarith

/-- C4, counterexample.  A generated task whose `estimatedHours` is 0.2
is neither invalid, non-positive, nor above 40, so it is rounded to the
nearest half — which is 0: the produced task violates
`0 < estimatedHours`. -/
theorem taskBounds_counterexample :
    ((TaskDecomposerAgent.parseResponse 0
        (some (Json.arr [Json.obj [("estimatedHours", Json.num (1/5))]]))
        sampleGoal).map (·.estimatedHours)) =
      [0] ∧
    ¬ (0 : ℚ) < 0 := by
  constructor
  · simp only [TaskDecomposerAgent.parseResponse,
      TaskDecomposerAgent.tasksOfJsonList, TaskDecomposerAgent.taskOfJson,
      getField, jsToLowerOpt, jsParseFloat, TaskDecomposerAgent.validateHours,
      List.find?, List.map]
    norm_num [jsRound, Int.floor_eq_zero_iff]
  · norm_num

/-- C4, amended.  Every task produced by any scoring path carries an
integer `priorityScore` in `[1, 10]`, and `validateHours` always yields
a half-hour multiple in `[0, 40]` — with `0 < estimatedHours` except
when the generated hours lie strictly between 0 and 0.25, where the
rounding to the nearest half yields exactly 0 (invalid or non-positive
hours default to 2, hours above 40 are capped at 40). -/
theorem taskBounds_amended (gen : Except String (Option Json))
    (tasks : List Task) (ctx : ScoringContext) (i : ℕ) (ho : Option ℚ)
    (h : i < (PriorityScorerAgent.scoreTasks gen tasks ctx).length) :
    (∃ n, ((PriorityScorerAgent.scoreTasks gen tasks ctx).getD i
        default).priorityScore = some n ∧ 1 ≤ n ∧ n ≤ 10) ∧
    0 ≤ TaskDecomposerAgent.validateHours ho ∧
    TaskDecomposerAgent.validateHours ho ≤ 40 ∧
    (∃ k : ℤ, TaskDecomposerAgent.validateHours ho = (k : ℚ) / 2) ∧
    (TaskDecomposerAgent.validateHours ho = 0 ↔
      ∃ q, ho = some q ∧ 0 < q ∧ q < 1/4) := by
  constructor
  · have hmem : (PriorityScorerAgent.scoreTasks gen tasks ctx).getD i default ∈
        PriorityScorerAgent.scoreTasks gen tasks ctx := by
      rw [List.getD_eq_getElem _ _ h]
      exact List.getElem_mem h
    exact scoreTasks_bounds gen tasks ctx _ hmem
  · exact validateHours_spec ho

/-- C4, witness: scoring one concrete high-priority task through the
generation-failure path and validating 2 hours. -/
theorem taskBounds_amended_witness :
    0 < (PriorityScorerAgent.scoreTasks (.error "backend unavailable")
      [sampleTaskHigh] {}).length ∧
    ((∃ n, ((PriorityScorerAgent.scoreTasks (.error "backend unavailable")
        [sampleTaskHigh] {}).getD 0
        default).priorityScore = some n ∧ 1 ≤ n ∧ n ≤ 10) ∧
      0 ≤ TaskDecomposerAgent.validateHours (some 2) ∧
      TaskDecomposerAgent.validateHours (some 2) ≤ 40 ∧
      (∃ k : ℤ, TaskDecomposerAgent.validateHours (some 2) = (k : ℚ) / 2) ∧
      (TaskDecomposerAgent.validateHours (some 2) = 0 ↔
        ∃ q, (some 2 : Option ℚ) = some q ∧ 0 < q ∧ q < 1/4)) := by
  have hlen : 0 < (PriorityScorerAgent.scoreTasks (.error "backend unavailable")
      [sampleTaskHigh] {}).length := by
    simp [PriorityScorerAgent.scoreTasks, PriorityScorerAgent.applyFallbackScoring,
      mapWithIndex_length]
  exact ⟨hlen, taskBounds_amended _ _ _ 0 (some 2) hlen⟩

/-- Helper for C5: each fallback-scored task's score equals the
closed-form heuristic of the specification. -/
theorem fallbackScoring_formula (tasks : List Task) (ctx : ScoringContext)
    (i : ℕ) (h : i < tasks.length) :
    ((PriorityScorerAgent.applyFallbackScoring tasks ctx).getD i
        default).priorityScore =
      some (specRicherHeuristic ctx (tasks.getD i default) i) := by
  simp only [PriorityScorerAgent.applyFallbackScoring]
  rw [mapWithIndex_getD _ tasks i default default h]
  simp only [specRicherHeuristic, Option.some.injEq]
  congr 1
  congr 1
  congr 1
  split_ifs <;> ring

/-- C5, counterexample.  With an urgency-matching deadline in the
caller's context and an unparsable scoring response, the fallback runs
with an *empty* context: a single medium task scores 8 (base 5 +
positional 3), not the 10 the claimed formula (including the +2
deadline bonus) yields; the deadline bonus is silently dropped. -/
theorem scoringFallback_counterexample :
    ((PriorityScorerAgent.scoreTasks (.ok none) [sampleTaskMedium]
        urgentCtx).map (·.priorityScore)) = [some 8] ∧
    ((PriorityScorerAgent.applyFallbackScoring [sampleTaskMedium]
        urgentCtx).map (·.priorityScore)) = [some 10] ∧
    some (8 : ℤ) ≠ some (10 : ℤ) := by
  have hurgent : PriorityScorerAgent.deadlineBonus (some "urgent") = 2 := by
    have hu : PriorityScorerAgent.hasUrgentDeadline "urgent" = true := by decide
    simp [PriorityScorerAgent.deadlineBonus, hu]
  refine ⟨?_, ?_, by decide⟩
  · simp [PriorityScorerAgent.scoreTasks, PriorityScorerAgent.parseResponse,
      PriorityScorerAgent.applyFallbackScoring, PriorityScorerAgent.deadlineBonus,
      sampleTaskMedium, mapWithIndex, mapWithIndex.go]
    norm_num [jsRound, max_def, min_def]
  · simp [PriorityScorerAgent.applyFallbackScoring, hurgent, urgentCtx,
      sampleTaskMedium, mapWithIndex, mapWithIndex.go]
    norm_num [jsRound, max_def, min_def]

/-- C5, amended.  When the generation call fails, every task is scored
by the richer heuristic with the *caller's* context; when the whole
response is unparsable, the same heuristic runs but with an *empty*
context (`applyFallbackScoring(tasks, {})`), so the deadline-urgency
and procrastinator bonuses never apply on that path.  The heuristic
itself is: base 5; +3 high / −2 low priority; `max(0, 3 − index·0.5)`;
+2 on an urgency-matching deadline; +1 for the first two tasks of a
procrastinator; rounded and clamped to `[1, 10]`. -/
theorem scoringFallback_amended (tasks : List Task) (ctx : ScoringContext)
    (e : String) (i : ℕ) (h : i < tasks.length) :
    PriorityScorerAgent.scoreTasks (.error e) tasks ctx =
      PriorityScorerAgent.applyFallbackScoring tasks ctx ∧
    PriorityScorerAgent.scoreTasks (.ok none) tasks ctx =
      PriorityScorerAgent.applyFallbackScoring tasks {} ∧
    ((PriorityScorerAgent.applyFallbackScoring tasks ctx).getD i
        default).priorityScore =
      some (specRicherHeuristic ctx (tasks.getD i default) i) :=
  ⟨rfl, rfl, fallbackScoring_formula tasks ctx i h⟩

/-- C5, witness for the amended theorem at one concrete procrastinator
context and task. -/
theorem scoringFallback_amended_witness :
    0 < ([sampleTaskHigh] : List Task).length ∧
    ((PriorityScorerAgent.applyFallbackScoring [sampleTaskHigh]
        procrastinatorCtx).getD 0 default).priorityScore =
      some (specRicherHeuristic procrastinatorCtx
        (([sampleTaskHigh] : List Task).getD 0 default) 0) :=
  ⟨by decide,
    (scoringFallback_amended [sampleTaskHigh] procrastinatorCtx "e" 0
      (by decide)).2.2⟩

/-! ### Helper lemmas: the fallback scheduler's build loop -/

theorem instLoad_mkInstance (prefs : SchedPrefs) (t : Task) (h' : ℚ) :
    instLoad prefs.bufferTimePercent (SchedulerAgent.mkInstance prefs t h') =
      t.estimatedHours + t.estimatedHours * (prefs.bufferTimePercent / 100) :=
  rfl

/-- Each loop iteration adds exactly the consumed task's estimate to
the total tracked duration. -/
theorem stateDur_schedStep (prefs : SchedPrefs)
    (st : SchedulerAgent.BuildState) (t : Task) :
    stateDur (SchedulerAgent.schedStep prefs st t) =
      stateDur st + t.estimatedHours := by
  simp only [SchedulerAgent.schedStep]
  split_ifs with hc
  · simp [stateDur, schedDurSum, dayDurSum, SchedulerAgent.closeDay,
      SchedulerAgent.mkInstance]
  · simp [stateDur, schedDurSum, dayDurSum, SchedulerAgent.mkInstance]
    ring

theorem stateDur_foldl (prefs : SchedPrefs) (l : List Task) :
    ∀ st : SchedulerAgent.BuildState,
      stateDur (l.foldl (SchedulerAgent.schedStep prefs) st) =
        stateDur st + sumEst l := by
  induction l with
  | nil => intro st; simp [sumEst]
  | cons a as ih =>
    intro st
    simp only [List.foldl_cons, sumEst, List.map_cons, List.sum_cons]
    rw [ih, stateDur_schedStep]
    simp only [sumEst]
    ring

theorem sumEst_sort (tasks : List Task) :
    sumEst (SchedulerAgent.sortByScoreDesc tasks) = sumEst tasks :=
  List.Perm.sum_eq (List.Perm.map _ (List.mergeSort_perm tasks _))

/-- The fallback schedule's scheduled durations sum to the input
tasks' summed estimates — exactly, with no rounding. -/
theorem fallback_durSum (tasks : List Task) (prefs : SchedPrefs) :
    schedDurSum (SchedulerAgent.createFallbackSchedule tasks prefs).schedule =
      sumEst tasks := by
  have hdur := stateDur_foldl prefs (SchedulerAgent.sortByScoreDesc tasks)
    ⟨[], 0, 0, []⟩
  have hinit : stateDur ⟨[], 0, 0, []⟩ = 0 := by
    simp [stateDur, schedDurSum]
  rw [hinit, zero_add, sumEst_sort] at hdur
  simp only [SchedulerAgent.createFallbackSchedule]
  split_ifs with hp
  · rw [← hdur]
    simp [schedDurSum, dayDurSum, stateDur, SchedulerAgent.closeDay]
  · have hnil : ((SchedulerAgent.sortByScoreDesc tasks).foldl
        (SchedulerAgent.schedStep prefs) ⟨[], 0, 0, []⟩).currentDayTasks = [] :=
      List.length_eq_zero.mp (by omega)
    rw [← hdur]
    simp [schedDurSum, stateDur, hnil]

/-- `toFixed(1)` is the identity on half-integers. -/
theorem round1_half (k : ℤ) : round1 ((k : ℚ) / 2) = (k : ℚ) / 2 := by
  unfold round1 jsRound
  rw [show ((k : ℚ) / 2) * 10 = ((5 * k : ℤ) : ℚ) by push_cast; ring,
    show ((5 * k : ℤ) : ℚ) + 1 / 2 = 1 / 2 + ((5 * k : ℤ) : ℚ) by ring,
    Int.floor_add_int]
  norm_num
  ring

theorem sumEst_half (tasks : List Task)
    (h : ∀ t ∈ tasks, ∃ k : ℤ, t.estimatedHours = (k : ℚ) / 2) :
    ∃ K : ℤ, sumEst tasks = (K : ℚ) / 2 := by
  induction tasks with
  | nil => exact ⟨0, by simp [sumEst]⟩
  | cons a as ih =>
    obtain ⟨k, hk⟩ := h a (List.mem_cons_self a as)
    obtain ⟨K, hK⟩ := ih (fun t ht => h t (List.mem_cons_of_mem a ht))
    refine ⟨k + K, ?_⟩
    simp only [sumEst, List.map_cons, List.sum_cons] at hK ⊢
    rw [hk, hK]
    push_cast
    ring

/-- C3, counterexample.  A parsed generated schedule is taken at face
value: with one 2-hour input task, a response carrying
`summary.totalHours = 999` and a day with no instances is normalized
into a schedule whose summary totalHours is 999 ≠ 2 and whose summed
instance durations are 0 ≠ 2. -/
theorem scheduleHours_counterexample :
    resultTotalHoursJson (SchedulerAgent.parseResponse
      (some sampleParsedResponse) [sampleTaskHigh] samplePrefs) =
      Json.num 999 ∧
    resultDurSum (SchedulerAgent.parseResponse
      (some sampleParsedResponse) [sampleTaskHigh] samplePrefs) = 0 ∧
    sumEst [sampleTaskHigh] = 2 ∧
    Json.num 999 ≠ Json.num (sumEst [sampleTaskHigh]) ∧
    resultDurSum (SchedulerAgent.parseResponse
      (some sampleParsedResponse) [sampleTaskHigh] samplePrefs) ≠
      sumEst [sampleTaskHigh] := by
  have hsum : sumEst [sampleTaskHigh] = 2 := by
    simp [sumEst, sampleTaskHigh]
  have hdur : resultDurSum (SchedulerAgent.parseResponse
      (some sampleParsedResponse) [sampleTaskHigh] samplePrefs) = 0 := by
    simp [SchedulerAgent.parseResponse, resultDurSum, parsedDayDurSum,
      SchedulerAgent.normalizeDay, getField, jsOr, jsTruthy,
      sampleParsedResponse, mapWithIndex, mapWithIndex.go, List.find?]
  refine ⟨rfl, hdur, hsum, ?_, ?_⟩
  · rw [hsum]
    intro heq
    injection heq with hq
    norm_num at hq
  · rw [hsum, hdur]
    norm_num

/-- C3, amended.  For every *fallback* schedule over tasks whose
estimates are half-hour multiples (which all validated tasks are), the
summary's `totalHours` equals the sum of the input tasks' estimates,
and the scheduled instance durations across all days sum to that same
value.  The *generated* path instead takes the model's
`summary.totalHours` and instance durations as-is (defaulting
`totalHours` to the computed sum only when the model's summary omits
it), so the invariant can fail there. -/
theorem scheduleHours_amended (tasks : List Task) (prefs : SchedPrefs)
    (h : ∀ t ∈ tasks, ∃ k : ℤ, t.estimatedHours = (k : ℚ) / 2) :
    (SchedulerAgent.createFallbackSchedule tasks prefs).summary.totalHours =
      sumEst tasks ∧
    schedDurSum (SchedulerAgent.createFallbackSchedule tasks prefs).schedule =
      sumEst tasks := by
  obtain ⟨K, hK⟩ := sumEst_half tasks h
  refine ⟨?_, fallback_durSum tasks prefs⟩
  show SchedulerAgent.calculateTotalHours tasks = sumEst tasks
  unfold SchedulerAgent.calculateTotalHours
  show round1 (sumEst tasks) = sumEst tasks
  rw [hK]
  exact round1_half K

/-- C3, witness for the amended theorem: two 2-hour tasks, default
preferences. -/
theorem scheduleHours_amended_witness :
    (∀ t ∈ [sampleTaskHigh, sampleTaskMedium],
      ∃ k : ℤ, t.estimatedHours = (k : ℚ) / 2) ∧
    ((SchedulerAgent.createFallbackSchedule [sampleTaskHigh, sampleTaskMedium]
        samplePrefs).summary.totalHours =
      sumEst [sampleTaskHigh, sampleTaskMedium] ∧
     schedDurSum (SchedulerAgent.createFallbackSchedule
        [sampleTaskHigh, sampleTaskMedium] samplePrefs).schedule =
      sumEst [sampleTaskHigh, sampleTaskMedium]) := by
  have hhalf : ∀ t ∈ [sampleTaskHigh, sampleTaskMedium],
      ∃ k : ℤ, t.estimatedHours = (k : ℚ) / 2 := by
    intro t ht
    rcases List.mem_cons.mp ht with rfl | ht
    · exact ⟨4, by norm_num [sampleTaskHigh]⟩
    · rcases List.mem_cons.mp ht with rfl | ht
      · exact ⟨4, by norm_num [sampleTaskMedium]⟩
      · simp at ht
  exact ⟨hhalf, scheduleHours_amended _ samplePrefs hhalf⟩

/-! ### Helper lemmas: the daily-cap invariant -/

theorem schedInv_init (prefs : SchedPrefs) :
    SchedInv prefs ⟨[], 0, 0, []⟩ := by
  refine ⟨by simp, by simp, by simp⟩

theorem schedInv_step (prefs : SchedPrefs) (st : SchedulerAgent.BuildState)
    (t : Task) (h : SchedInv prefs st) :
    SchedInv prefs (SchedulerAgent.schedStep prefs st t) := by
  obtain ⟨hdays, hcur, hsum⟩ := h
  simp only [SchedulerAgent.schedStep]
  split_ifs with hc
  · refine ⟨?_, ?_, ?_⟩
    · intro d hd
      rcases List.mem_append.mp hd with hd | hd
      · exact hdays d hd
      · rcases List.mem_singleton.mp hd with rfl
        refine ⟨by exact hc.2, ?_⟩
        intro h2
        show dayLoad prefs.bufferTimePercent (SchedulerAgent.closeDay prefs st) ≤
          prefs.availableHoursPerDay
        unfold dayLoad SchedulerAgent.closeDay
        simp only []
        rw [hsum]
        exact hcur h2
    · intro h2
      simp at h2
    · simp [instLoad_mkInstance]
  · refine ⟨hdays, ?_, ?_⟩
    · intro h2
      have hlen : 0 < st.currentDayTasks.length := by
        simp only [List.length_append, List.length_cons, List.length_nil] at h2
        omega
      have hle : st.currentDayHours +
          (t.estimatedHours + t.estimatedHours * (prefs.bufferTimePercent / 100)) ≤
          prefs.availableHoursPerDay := by
        by_contra hlt
        exact hc ⟨lt_of_not_le hlt, hlen⟩
      simpa using hle
    · simp [instLoad_mkInstance, hsum]

theorem schedInv_foldl (prefs : SchedPrefs) (l : List Task) :
    ∀ st : SchedulerAgent.BuildState, SchedInv prefs st →
      SchedInv prefs (l.foldl (SchedulerAgent.schedStep prefs) st) := by
  induction l with
  | nil => intro st h; exact h
  | cons a as ih =>
    intro st h
    exact ih _ (schedInv_step prefs st a h)

/-- Every day of a fallback schedule is non-empty and, when it holds
two or more tasks, stays within the daily cap. -/
theorem fallback_days_ok (tasks : List Task) (prefs : SchedPrefs) :
    ∀ d ∈ (SchedulerAgent.createFallbackSchedule tasks prefs).schedule,
      DayOk prefs d := by
  have hinv := schedInv_foldl prefs (SchedulerAgent.sortByScoreDesc tasks)
    ⟨[], 0, 0, []⟩ (schedInv_init prefs)
  obtain ⟨hdays, hcur, hsum⟩ := hinv
  intro d hd
  simp only [SchedulerAgent.createFallbackSchedule] at hd
  split_ifs at hd with hp
  · rcases List.mem_append.mp hd with hd | hd
    · exact hdays d hd
    · rcases List.mem_singleton.mp hd with rfl
      refine ⟨by exact hp, ?_⟩
      intro h2
      show dayLoad prefs.bufferTimePercent (SchedulerAgent.closeDay prefs _) ≤
        prefs.availableHoursPerDay
      unfold dayLoad SchedulerAgent.closeDay
      simp only []
      rw [hsum]
      exact hcur h2
  · exact hdays d (by simpa using hd)

/-- C9.  In every fallback schedule, a day exceeds the daily cap only
when it holds exactly one task, whose buffered duration alone exceeds
the cap; every day with two or more tasks stays within the cap. -/
theorem scheduleOverflow_single (tasks : List Task) (prefs : SchedPrefs)
    (i : ℕ)
    (h : i < (SchedulerAgent.createFallbackSchedule tasks prefs).schedule.length) :
    (prefs.availableHoursPerDay < dayLoad prefs.bufferTimePercent
        ((SchedulerAgent.createFallbackSchedule tasks prefs).schedule.getD i
          default) →
      ((SchedulerAgent.createFallbackSchedule tasks prefs).schedule.getD i
        default).tasks.length = 1 ∧
      ∀ inst ∈ ((SchedulerAgent.createFallbackSchedule tasks
          prefs).schedule.getD i default).tasks,
        prefs.availableHoursPerDay < instLoad prefs.bufferTimePercent inst) ∧
    (2 ≤ ((SchedulerAgent.createFallbackSchedule tasks prefs).schedule.getD i
        default).tasks.length →
      dayLoad prefs.bufferTimePercent
        ((SchedulerAgent.createFallbackSchedule tasks prefs).schedule.getD i
          default) ≤ prefs.availableHoursPerDay) := by
  have hmem : (SchedulerAgent.createFallbackSchedule tasks
      prefs).schedule.getD i default ∈
      (SchedulerAgent.createFallbackSchedule tasks prefs).schedule := by
    rw [List.getD_eq_getElem _ _ h]
    exact List.getElem_mem h
  obtain ⟨h1, h2⟩ := fallback_days_ok tasks prefs _ hmem
  set day := (SchedulerAgent.createFallbackSchedule tasks
    prefs).schedule.getD i default with hday
  refine ⟨?_, h2⟩
  intro hover
  have hlen : day.tasks.length = 1 := by
    rcases Nat.lt_or_ge day.tasks.length 2 with hl | hl
    · omega
    · exact absurd (h2 hl) (not_le.mpr hover)
  refine ⟨hlen, ?_⟩
  intro inst hinst
  obtain ⟨a, ha⟩ := List.length_eq_one.mp hlen
  rw [ha] at hinst
  rcases List.mem_singleton.mp hinst with rfl
  have hload : dayLoad prefs.bufferTimePercent day =
      instLoad prefs.bufferTimePercent inst := by
    unfold dayLoad
    rw [ha]
    simp
  rw [hload] at hover
  exact hover

/-- C9, witness: a single 6-hour task against a 4-hour cap with 20%
buffer yields a one-day schedule whose lone day is overloaded. -/
theorem scheduleOverflow_single_witness :
    0 < (SchedulerAgent.createFallbackSchedule [sampleTaskBig]
      samplePrefs).schedule.length ∧
    ((samplePrefs.availableHoursPerDay < dayLoad samplePrefs.bufferTimePercent
        ((SchedulerAgent.createFallbackSchedule [sampleTaskBig]
          samplePrefs).schedule.getD 0 default) →
      ((SchedulerAgent.createFallbackSchedule [sampleTaskBig]
        samplePrefs).schedule.getD 0 default).tasks.length = 1 ∧
      ∀ inst ∈ ((SchedulerAgent.createFallbackSchedule [sampleTaskBig]
          samplePrefs).schedule.getD 0 default).tasks,
        samplePrefs.availableHoursPerDay <
          instLoad samplePrefs.bufferTimePercent inst) ∧
    (2 ≤ ((SchedulerAgent.createFallbackSchedule [sampleTaskBig]
        samplePrefs).schedule.getD 0 default).tasks.length →
      dayLoad samplePrefs.bufferTimePercent
        ((SchedulerAgent.createFallbackSchedule [sampleTaskBig]
          samplePrefs).schedule.getD 0 default) ≤
        samplePrefs.availableHoursPerDay)) := by
  have hlen : 0 < (SchedulerAgent.createFallbackSchedule [sampleTaskBig]
      samplePrefs).schedule.length := by
    simp only [SchedulerAgent.createFallbackSchedule,
      SchedulerAgent.sortByScoreDesc, List.mergeSort_singleton,
      List.foldl_cons, List.foldl_nil, SchedulerAgent.schedStep]
    norm_num [sampleTaskBig, samplePrefs]
  exact ⟨hlen, scheduleOverflow_single [sampleTaskBig] samplePrefs 0 hlen⟩

/-! ### Helper lemmas: pattern upsert -/

theorem upsert_keys_of_mem (ps : List PatternEntry) (u : MemoryUpdate)
    (h : u.pattern ∈ patternKeys ps) :
    patternKeys (ReflectionAgent.upsertPattern ps u) = patternKeys ps := by
  induction ps with
  | nil => simp [patternKeys] at h
  | cons p ps ih =>
    simp only [ReflectionAgent.upsertPattern]
    split_ifs with hp
    · simp [patternKeys, ReflectionAgent.mergeEntry, hp]
    · simp only [patternKeys, List.map_cons, List.mem_cons] at h
      rcases h with heq | hmem
      · exact absurd heq.symm hp
      · simpa [patternKeys] using ih hmem

theorem upsert_keys_of_not_mem (ps : List PatternEntry) (u : MemoryUpdate)
    (h : u.pattern ∉ patternKeys ps) :
    patternKeys (ReflectionAgent.upsertPattern ps u) =
      patternKeys ps ++ [u.pattern] := by
  induction ps with
  | nil => simp [patternKeys, ReflectionAgent.upsertPattern,
      ReflectionAgent.newEntry]
  | cons p ps ih =>
    simp only [patternKeys, List.map_cons, List.mem_cons, not_or] at h
    simp only [ReflectionAgent.upsertPattern]
    split_ifs with hp
    · exact absurd hp.symm h.1
    · simpa [patternKeys] using ih h.2

theorem upsert_keys_sub (ps : List PatternEntry) (u : MemoryUpdate)
    (k : String) (h : k ∈ patternKeys ps) :
    k ∈ patternKeys (ReflectionAgent.upsertPattern ps u) := by
  by_cases hm : u.pattern ∈ patternKeys ps
  · rw [upsert_keys_of_mem ps u hm]; exact h
  · rw [upsert_keys_of_not_mem ps u hm]
    exact List.mem_append_left _ h

theorem upsert_key_self (ps : List PatternEntry) (u : MemoryUpdate) :
    u.pattern ∈ patternKeys (ReflectionAgent.upsertPattern ps u) := by
  by_cases hm : u.pattern ∈ patternKeys ps
  · rw [upsert_keys_of_mem ps u hm]; exact hm
  · rw [upsert_keys_of_not_mem ps u hm]
    exact List.mem_append_right _ (List.mem_singleton_self _)

theorem upsert_nodup (ps : List PatternEntry) (u : MemoryUpdate)
    (h : (patternKeys ps).Nodup) :
    (patternKeys (ReflectionAgent.upsertPattern ps u)).Nodup := by
  by_cases hm : u.pattern ∈ patternKeys ps
  · rw [upsert_keys_of_mem ps u hm]; exact h
  · rw [upsert_keys_of_not_mem ps u hm]
    simp [List.nodup_append, h, hm]

theorem foldl_upsert_nodup (us : List MemoryUpdate) :
    ∀ ps : List PatternEntry, (patternKeys ps).Nodup →
      (patternKeys (us.foldl ReflectionAgent.upsertPattern ps)).Nodup := by
  induction us with
  | nil => intro ps h; exact h
  | cons a as ih =>
    intro ps h
    exact ih _ (upsert_nodup ps a h)

theorem foldl_upsert_key_mem (us : List MemoryUpdate) :
    ∀ (ps : List PatternEntry) (k : String), k ∈ patternKeys ps →
      k ∈ patternKeys (us.foldl ReflectionAgent.upsertPattern ps) := by
  induction us with
  | nil => intro ps k h; exact h
  | cons a as ih =>
    intro ps k h
    exact ih _ k (upsert_keys_sub ps a k h)

theorem foldl_key_of_update (us : List MemoryUpdate) (u : MemoryUpdate)
    (hu : u ∈ us) :
    ∀ ps : List PatternEntry,
      u.pattern ∈ patternKeys (us.foldl ReflectionAgent.upsertPattern ps) := by
  induction us with
  | nil => simp at hu
  | cons a as ih =>
    intro ps
    rcases List.mem_cons.mp hu with rfl | hmem
    · exact foldl_upsert_key_mem as _ _ (upsert_key_self ps u)
    · exact ih hmem _

theorem foldl_keys_of_all_mem (us : List MemoryUpdate) :
    ∀ ps : List PatternEntry, (∀ u ∈ us, u.pattern ∈ patternKeys ps) →
      patternKeys (us.foldl ReflectionAgent.upsertPattern ps) =
        patternKeys ps := by
  induction us with
  | nil => intro ps _; rfl
  | cons a as ih =>
    intro ps h
    have hkeys := upsert_keys_of_mem ps a (h a (List.mem_cons_self a as))
    rw [List.foldl_cons, ih _ (fun u hu => by
      rw [hkeys]; exact h u (List.mem_cons_of_mem a hu)), hkeys]

theorem find_upsert_self (ps : List PatternEntry) (u : MemoryUpdate) :
    ∃ n, 1 ≤ n ∧
      findPattern (ReflectionAgent.upsertPattern ps u) u.pattern =
        some { pattern := u.pattern, description := u.description,
               confidence := u.confidence, occurrences := some n } := by
  induction ps with
  | nil =>
    exact ⟨1, le_refl 1, by
      simp [findPattern, ReflectionAgent.upsertPattern,
        ReflectionAgent.newEntry, List.find?]⟩
  | cons p ps ih =>
    simp only [ReflectionAgent.upsertPattern]
    split_ifs with hp
    · refine ⟨ReflectionAgent.occOr1 p.occurrences + 1, by omega, ?_⟩
      simp [findPattern, ReflectionAgent.mergeEntry, List.find?]
    · obtain ⟨n, hn, hfind⟩ := ih
      refine ⟨n, hn, ?_⟩
      simpa [findPattern, List.find?, show (p.pattern == u.pattern) = false
        from beq_eq_false_iff_ne.mpr hp] using hfind

theorem find_upsert_ne (ps : List PatternEntry) (u : MemoryUpdate)
    (k : String) (hk : k ≠ u.pattern) :
    findPattern (ReflectionAgent.upsertPattern ps u) k = findPattern ps k := by
  induction ps with
  | nil =>
    simp [findPattern, ReflectionAgent.upsertPattern,
      ReflectionAgent.newEntry, List.find?,
      show (u.pattern == k) = false from beq_eq_false_iff_ne.mpr
        (fun h => hk h.symm)]
  | cons p ps ih =>
    simp only [ReflectionAgent.upsertPattern]
    split_ifs with hp
    · simp [findPattern, List.find?, ReflectionAgent.mergeEntry, hp,
        show (u.pattern == k) = false from beq_eq_false_iff_ne.mpr
          (fun h => hk h.symm)]
    · by_cases hpk : p.pattern = k
      · simp [findPattern, List.find?, hpk]
      · simpa [findPattern, List.find?, show (p.pattern == k) = false
          from beq_eq_false_iff_ne.mpr hpk] using ih

theorem find_upsert_found (ps : List PatternEntry) (u : MemoryUpdate)
    (e : PatternEntry) (hf : findPattern ps u.pattern = some e) :
    findPattern (ReflectionAgent.upsertPattern ps u) u.pattern =
      some (ReflectionAgent.mergeEntry e u) := by
  induction ps with
  | nil => simp [findPattern, List.find?] at hf
  | cons p ps ih =>
    simp only [ReflectionAgent.upsertPattern]
    split_ifs with hp
    · have : p = e := by
        simpa [findPattern, List.find?, show (p.pattern == u.pattern) = true
          from beq_iff_eq.mpr hp] using hf
      subst this
      simp [findPattern, List.find?, ReflectionAgent.mergeEntry]
    · have hfind : findPattern ps u.pattern = some e := by
        simpa [findPattern, List.find?, show (p.pattern == u.pattern) = false
          from beq_eq_false_iff_ne.mpr hp] using hf
      simpa [findPattern, List.find?, show (p.pattern == u.pattern) = false
        from beq_eq_false_iff_ne.mpr hp] using ih hfind

theorem foldl_find_ne (us : List MemoryUpdate) (k : String)
    (h : ∀ u ∈ us, u.pattern ≠ k) :
    ∀ ps : List PatternEntry,
      findPattern (us.foldl ReflectionAgent.upsertPattern ps) k =
        findPattern ps k := by
  induction us with
  | nil => intro ps; rfl
  | cons a as ih =>
    intro ps
    rw [List.foldl_cons, ih (fun u hu => h u (List.mem_cons_of_mem a hu)),
      find_upsert_ne ps a k (fun hk => h a (List.mem_cons_self a as) hk.symm)]

/-- After one pass over a duplicate-free update list, the entry stored
under each update's key has a positive `occurrences` and the update's
fields. -/
theorem foldl_occ (us : List MemoryUpdate) (u : MemoryUpdate) (hu : u ∈ us)
    (hnodup : (us.map (fun v => v.pattern)).Nodup) (ps : List PatternEntry) :
    ∃ n, 1 ≤ n ∧
      findPattern (us.foldl ReflectionAgent.upsertPattern ps) u.pattern =
        some { pattern := u.pattern, description := u.description,
               confidence := u.confidence, occurrences := some n } := by
  obtain ⟨pre, post, rfl⟩ := List.append_of_mem hu
  rw [List.map_append] at hnodup
  obtain ⟨hn1, hn2, hdisj⟩ := List.nodup_append.mp hnodup
  have hpost : ∀ v ∈ post, v.pattern ≠ u.pattern := by
    intro v hv he
    have hmem : u.pattern ∈ post.map (fun v => v.pattern) :=
      List.mem_map.mpr ⟨v, hv, he⟩
    exact (List.nodup_cons.mp (by simpa using hn2)).1 hmem
  obtain ⟨n, hn, hfind⟩ := find_upsert_self
    (pre.foldl ReflectionAgent.upsertPattern ps) u
  refine ⟨n, hn, ?_⟩
  rw [List.foldl_append, List.foldl_cons, foldl_find_ne post u.pattern hpost]
  exact hfind

/-- A second pass over the same duplicate-free update list merges onto
the entry left by the first pass. -/
theorem foldl_occ_second (us : List MemoryUpdate) (u : MemoryUpdate)
    (hu : u ∈ us) (hnodup : (us.map (fun v => v.pattern)).Nodup)
    (ps1 : List PatternEntry) (e : PatternEntry)
    (hfind : findPattern ps1 u.pattern = some e) :
    findPattern (us.foldl ReflectionAgent.upsertPattern ps1) u.pattern =
      some (ReflectionAgent.mergeEntry e u) := by
  obtain ⟨pre, post, rfl⟩ := List.append_of_mem hu
  rw [List.map_append] at hnodup
  obtain ⟨hn1, hn2, hdisj⟩ := List.nodup_append.mp hnodup
  have hpre : ∀ v ∈ pre, v.pattern ≠ u.pattern := by
    intro v hv he
    refine hdisj (List.mem_map.mpr ⟨v, hv, he⟩) ?_
    simp
  have hpost : ∀ v ∈ post, v.pattern ≠ u.pattern := by
    intro v hv he
    have hmem : u.pattern ∈ post.map (fun v => v.pattern) :=
      List.mem_map.mpr ⟨v, hv, he⟩
    exact (List.nodup_cons.mp (by simpa using hn2)).1 hmem
  rw [List.foldl_append, List.foldl_cons, foldl_find_ne post u.pattern hpost]
  apply find_upsert_found
  rw [foldl_find_ne pre u.pattern hpre]
  exact hfind

theorem occOr1_pos (n : ℕ) (h : 1 ≤ n) :
    ReflectionAgent.occOr1 (some n) = n := by
  simp only [ReflectionAgent.occOr1]
  rw [if_neg (by omega)]

/-- C8, counterexample.  With `memoryUpdates` containing the same
pattern key twice, each call upserts that key twice: starting from an
empty memory the entry's `occurrences` is 2 after one call and 4 — not
3 — after a second identical call. -/
theorem memoryUpsert_counterexample :
    findPattern (ReflectionAgent.updateMemory { patterns := [] }
      [⟨"procrastination", "d", "high"⟩, ⟨"procrastination", "d", "high"⟩]
      []).patterns "procrastination" =
      some ⟨"procrastination", "d", "high", some 2⟩ ∧
    findPattern (ReflectionAgent.updateMemory
      (ReflectionAgent.updateMemory { patterns := [] }
        [⟨"procrastination", "d", "high"⟩, ⟨"procrastination", "d", "high"⟩]
        [])
      [⟨"procrastination", "d", "high"⟩, ⟨"procrastination", "d", "high"⟩]
      []).patterns "procrastination" =
      some ⟨"procrastination", "d", "high", some 4⟩ ∧
    (4 : ℕ) ≠ 2 + 1 := by
  refine ⟨by decide, by decide, by decide⟩

/-- C8, amended.  For every memory whose pattern keys are distinct and
every `memoryUpdates` list whose pattern keys are themselves distinct,
the upsert keeps the stored keys duplicate-free, and applying it again
with the identical updates leaves the key list unchanged while
incrementing each matching entry's `occurrences` by exactly 1. -/
theorem memoryUpsert_amended (m : UserMemory) (us : List MemoryUpdate)
    (prog : List Progress) (hm : (patternKeys m.patterns).Nodup)
    (hu : (us.map (fun v => v.pattern)).Nodup) :
    (patternKeys (ReflectionAgent.updateMemory m us prog).patterns).Nodup ∧
    patternKeys (ReflectionAgent.updateMemory
        (ReflectionAgent.updateMemory m us prog) us prog).patterns =
      patternKeys (ReflectionAgent.updateMemory m us prog).patterns ∧
    ∀ u ∈ us, ∃ n, 1 ≤ n ∧
      findPattern (ReflectionAgent.updateMemory m us prog).patterns u.pattern =
        some { pattern := u.pattern, description := u.description,
               confidence := u.confidence, occurrences := some n } ∧
      findPattern (ReflectionAgent.updateMemory
          (ReflectionAgent.updateMemory m us prog) us prog).patterns
          u.pattern =
        some { pattern := u.pattern, description := u.description,
               confidence := u.confidence, occurrences := some (n + 1) } := by
  have hp1 : (ReflectionAgent.updateMemory m us prog).patterns =
      us.foldl ReflectionAgent.upsertPattern m.patterns := rfl
  have hp2 : (ReflectionAgent.updateMemory
      (ReflectionAgent.updateMemory m us prog) us prog).patterns =
      us.foldl ReflectionAgent.upsertPattern
        (us.foldl ReflectionAgent.upsertPattern m.patterns) := rfl
  refine ⟨?_, ?_, ?_⟩
  · rw [hp1]
    exact foldl_upsert_nodup us m.patterns hm
  · rw [hp1, hp2]
    exact foldl_keys_of_all_mem us _ (fun u hu' => foldl_key_of_update us u hu' _)
  · intro u hu'
    obtain ⟨n, hn, hfind1⟩ := foldl_occ us u hu' hu m.patterns
    have hfind2 := foldl_occ_second us u hu' hu
      (us.foldl ReflectionAgent.upsertPattern m.patterns) _ hfind1
    refine ⟨n, hn, by rw [hp1]; exact hfind1, ?_⟩
    rw [hp2, hfind2]
    simp [ReflectionAgent.mergeEntry, occOr1_pos n hn]

/-- C8, witness for the amended theorem: one update applied twice to an
empty memory stores `occurrences = 1` then 2. -/
theorem memoryUpsert_amended_witness :
    (((patternKeys ({ patterns := [] } : UserMemory).patterns).Nodup) ∧
      (([⟨"evening_productivity", "evenings work", "high"⟩] :
          List MemoryUpdate).map (fun v => v.pattern)).Nodup) ∧
    ((patternKeys (ReflectionAgent.updateMemory { patterns := [] }
        [⟨"evening_productivity", "evenings work", "high"⟩] []).patterns).Nodup ∧
     patternKeys (ReflectionAgent.updateMemory
        (ReflectionAgent.updateMemory { patterns := [] }
          [⟨"evening_productivity", "evenings work", "high"⟩] [])
        [⟨"evening_productivity", "evenings work", "high"⟩] []).patterns =
      patternKeys (ReflectionAgent.updateMemory { patterns := [] }
        [⟨"evening_productivity", "evenings work", "high"⟩] []).patterns ∧
     ∀ u ∈ ([⟨"evening_productivity", "evenings work", "high"⟩] :
        List MemoryUpdate), ∃ n, 1 ≤ n ∧
      findPattern (ReflectionAgent.updateMemory { patterns := [] }
          [⟨"evening_productivity", "evenings work", "high"⟩] []).patterns
          u.pattern =
        some { pattern := u.pattern, description := u.description,
               confidence := u.confidence, occurrences := some n } ∧
      findPattern (ReflectionAgent.updateMemory
          (ReflectionAgent.updateMemory { patterns := [] }
            [⟨"evening_productivity", "evenings work", "high"⟩] [])
          [⟨"evening_productivity", "evenings work", "high"⟩] []).patterns
          u.pattern =
        some { pattern := u.pattern, description := u.description,
               confidence := u.confidence, occurrences := some (n + 1) }) :=
  ⟨⟨by decide, by decide⟩,
    memoryUpsert_amended { patterns := [] }
      [⟨"evening_productivity", "evenings work", "high"⟩] []
      (by decide) (by decide)⟩

end GoalFlow
